import Mathlib

/-!
Bittrex exchange adapter (`exchange/bittrex/exchange.go`)

A shallow embedding of the Bittrex adapter: the three package-level concurrent
maps, the singleton constructor, the data-source switch of `InitData`, and the
read/write/derived accessors over the constraint stores.

Conventions of the embedding

* Go `int` is `Int`; `fmt.Sprintf("%d", _)` and `strconv.Atoi` are modelled on
  strings, `Atoi` through the left-to-right digit loop of `ParseUint`, with
  its syntax-error and range-error results (the callers drop the error and
  keep the value).
* `float64` values are only stored and handed back by this file, never
  computed with, so a `Float64` is carried as its IEEE-754 bit pattern.
* A Go pointer that may be nil is an `Option`; reading a field through a nil
  pointer is the run-time fault `Fault.nilPointerDereference`.  Functions whose
  body contains no faulting operation are plain total functions.
* `cmap.ConcurrentMap` is an association list; the list order is the
  (unspecified) order in which `Keys()` enumerates the map.  Each of the three
  maps holds values of the one dynamic type its readers assert
  (`*exchange.CoinConstraint`, `*exchange.PairConstraint`, `float64`), and the
  stored record pointers are not nil, so the type assertions do not fault.
* The `*coin.Coin`, `*pair.Pair` and record arguments of the methods are
  taken by value: the callers pass pointers that are not nil.
* The receiver `e` is passed only to the methods that read one of its fields.
* `log.Printf` output is not part of the state.
* The states a store can reach are described by lists of mutator calls
  (`StoreOp`, `runOps`); the IDs of such calls are Go `int`s (`isInt`).
-/

namespace Gored

/-! ## Values -/

/-- A `float64`, carried as its IEEE-754 binary64 bit pattern. -/
structure Float64 where
  bits : Nat
deriving DecidableEq, Repr

/-- The literal `0.0` (also the zero value of `float64`). -/
def Float64.zero : Float64 := ⟨0⟩

/-- The literal `0.001`, bit pattern `0x3F50624DD2F1A9FC`. -/
def Float64.milli : Float64 := ⟨0x3F50624DD2F1A9FC⟩

/-- Run-time faults of the embedded code. -/
inductive Fault where
  | nilPointerDereference
deriving DecidableEq, Repr

/-- Reading through a pointer: a nil pointer faults. -/
def deref {α : Type} (p : Option α) : Except Fault α :=
  match p with
  | some a => .ok a
  | none => .error Fault.nilPointerDereference

/-- Modelled from the spec: the declaration of `coin.Coin` (package `coin`) is not
among the sources; spec §3 gives `Coin {ID: int, Code: string}`, and the adapter
reads exactly `coin.ID` and `coin.Code`. -/
structure Coin where
  ID : Int
  Code : String
deriving DecidableEq, Repr

/-- Modelled from the spec: the declaration of `pair.Pair` (package `pair`) is not
among the sources; spec §3 gives `Pair {ID: int, Base: Coin, Quote: Coin}`, and the
adapter reads `pair.ID`. -/
structure Pair where
  ID : Int
  Base : Coin
  Quote : Coin
deriving DecidableEq, Repr

/-- Modelled from the spec: the declaration of `exchange.CoinConstraint` is not
among the sources; the fields are those of spec §3 together with the `Coin`
pointer that `GetCoinBySymbol` returns (`cc.Coin`, of type `*coin.Coin`). -/
structure CoinConstraint where
  CoinID : Int
  Coin : Option Coin
  ExSymbol : String
  TxFee : Float64
  Withdraw : Bool
  Deposit : Bool
  Confirmation : Int
deriving DecidableEq, Repr

/-- Modelled from the spec: the declaration of `exchange.PairConstraint` is not
among the sources; the fields are those of spec §3 together with the `Pair`
pointer that `GetPairBySymbol` returns (`pc.Pair`, of type `*pair.Pair`). -/
structure PairConstraint where
  PairID : Int
  Pair : Option Pair
  ExSymbol : String
  TakerFee : Float64
  LotSize : Float64
  PriceFilter : Float64
deriving DecidableEq, Repr

/-! ## Decimal keys: `fmt.Sprintf("%d", _)` and `strconv.Atoi` -/

/-- The verb `%d` applied to an `int`: decimal digits, with a leading `-` for a
negative number. -/
def Sprintf_d (n : Int) : String :=
  match n with
  | Int.ofNat m => Nat.repr m
  | Int.negSucc m => "-" ++ Nat.repr (m + 1)

/-- Largest `int` (64-bit). -/
def maxInt : Int := 2 ^ 63 - 1

/-- Smallest `int` (64-bit). -/
def minInt : Int := -(2 ^ 63)

/-- The unsigned value of a string of decimal digits. -/
def digitsValue (ds : List Char) : Nat :=
  ds.foldl (fun n d => n * 10 + (d.toNat - 48)) 0

/-- Largest `uint64`. -/
def maxUint64 : Nat := 2 ^ 64 - 1

/-- The two errors of a `strconv` parse; a nil error is `none`. -/
inductive NumError where
  | ErrSyntax
  | ErrRange
deriving DecidableEq, Repr

/-- The digit loop of `strconv.ParseUint(s, 10, 64)`, bytes left to right, `n`
being the value read so far.  A byte that is not a decimal digit ends the loop
with `0` and a syntax error.  A value that no longer fits a `uint64` (`n` at or
above the cutoff `maxUint64 / 10 + 1`, or `n * 10 + d` beyond `maxUint64`) ends
it with `maxUint64` and a range error, before the remaining bytes are read. -/
def ParseUint.loop : List Char → Nat → Nat × Option NumError
  | [], n => (n, none)
  | c :: cs, n =>
    if !c.isDigit then (0, some NumError.ErrSyntax)
    else if n ≥ maxUint64 / 10 + 1 then (maxUint64, some NumError.ErrRange)
    else if n * 10 + (c.toNat - 48) > maxUint64 then (maxUint64, some NumError.ErrRange)
    else ParseUint.loop cs (n * 10 + (c.toNat - 48))

/-- The function `strconv.ParseUint(s, 10, 64)`: the empty string is a syntax
error. -/
def ParseUint (s : List Char) : Nat × Option NumError :=
  if s.isEmpty then (0, some NumError.ErrSyntax) else ParseUint.loop s 0

/-- The function `strconv.ParseInt(s, 10, 0)`: a leading `+` or `-` is picked off,
the rest goes through `ParseUint`; a syntax error gives `0`; otherwise the
unsigned value is cut to the range of `int`, `maxInt` or `minInt` with a range
error when it lies beyond. -/
def ParseInt (s : List Char) : Int × Option NumError :=
  match s with
  | [] => (0, some NumError.ErrSyntax)
  | c :: cs =>
    let neg : Bool := decide (c = '-')
    let rest : List Char := if c = '+' then cs else if c = '-' then cs else c :: cs
    match ParseUint rest with
    | (_, some NumError.ErrSyntax) => (0, some NumError.ErrSyntax)
    | (un, _) =>
      if !neg && decide (un ≥ 2 ^ 63) then (maxInt, some NumError.ErrRange)
      else if neg && decide (un > 2 ^ 63) then (minInt, some NumError.ErrRange)
      else (if neg then -(un : Int) else (un : Int), none)

/-- The value returned by `strconv.Atoi(s)`, the error being dropped as in
`id, _ := strconv.Atoi(key)`: the value of `ParseInt(s, 10, 0)`.  (The fast path
`Atoi` takes for strings shorter than 19 bytes computes the same value: such a
string cannot overflow, and any byte that is not a digit gives `0`.) -/
def Atoi (s : String) : Int := (ParseInt s.toList).1

/-- The function `sort.Ints`: the increasing rearrangement of a slice of ints. -/
def sortInts (xs : List Int) : List Int :=
  xs.insertionSort (fun a b => a ≤ b)

/-! ## `cmap.ConcurrentMap` -/

/-- A concurrent map from string keys to values of type `V`, as the list of its
entries in enumeration order. -/
structure CMap (V : Type) where
  entries : List (String × V)
deriving DecidableEq, Repr

namespace CMap

variable {V : Type}

/-- The constructor `cmap.New()`: the empty map. -/
def New : CMap V := ⟨[]⟩

/-- Lookup in a list of entries. -/
def lookup (k : String) : List (String × V) → Option V
  | [] => none
  | (k', v) :: rest => if k' = k then some v else lookup k rest

/-- Insert-or-replace in a list of entries. -/
def upsert (k : String) (v : V) : List (String × V) → List (String × V)
  | [] => [(k, v)]
  | (k', v') :: rest => if k' = k then (k, v) :: rest else (k', v') :: upsert k v rest

/-- The method `m.Get(key)`: the value and `ok = true`, or `ok = false`. -/
def Get (m : CMap V) (key : String) : Option V := lookup key m.entries

/-- The method `m.Set(key, value)`: insert, or replace the value held under `key`. -/
def Set (m : CMap V) (key : String) (value : V) : CMap V := ⟨upsert key value m.entries⟩

/-- The method `m.Has(key)`. -/
def Has (m : CMap V) (key : String) : Bool := (m.Get key).isSome

/-- The method `m.Remove(key)`. -/
def Remove (m : CMap V) (key : String) : CMap V :=
  ⟨m.entries.filter (fun e => !(e.1 == key))⟩

/-- The method `m.Keys()`. -/
def Keys (m : CMap V) : List String := m.entries.map Prod.fst

/-- The method `m.Count()`: the number of entries. -/
def Count (m : CMap V) : Nat := m.entries.length

end CMap

/-! ## Package state -/

/-- Modelled from the spec: the declaration of `exchange.DataSource` and of its
constants is not among the sources; spec §4.3 names the four recognised
strategies (live-api, microservice, snapshot-file, relational-store), which are
the constants `InitData` switches on.  `unrecognised` stands for every other
value, the unset zero value included. -/
inductive DataSource where
  | EXCHANGE_API
  | MICROSERVICE_API
  | JSON_FILE
  | PSQL
  | unrecognised (raw : String)
deriving DecidableEq, Repr

/-- Modelled from the spec: the declaration of `exchange.ExchangeName` is not
among the sources; `main.go` uses the two constants `exchange.BINANCE` and
`exchange.BITTREX`. -/
inductive ExchangeName where
  | BINANCE
  | BITTREX
deriving DecidableEq, Repr

/-- Modelled from the spec: the declaration of `exchange.Config` is not among the
sources; these are the four fields `CreateBittrex` copies out of it. -/
structure Config where
  API_KEY : String
  API_SECRET : String
  Source : DataSource
  SourceURI : String
deriving DecidableEq, Repr

/-- The struct `Bittrex`. -/
structure Bittrex where
  ID : Int
  Name : String
  Website : String
  API_KEY : String
  API_SECRET : String
  Source : DataSource
  SourceURI : String
deriving DecidableEq, Repr

/-- The package-level variables `pairConstraintMap`, `coinConstraintMap`,
`balanceMap`, `instance` (here `inst`) and `once` (here its done flag). -/
structure Globals where
  pairConstraintMap : CMap PairConstraint
  coinConstraintMap : CMap CoinConstraint
  balanceMap : CMap Float64
  inst : Option Bittrex
  once : Bool
deriving DecidableEq, Repr

/-- The package state at program start: nothing constructed yet.  The three maps
are allocated by `CreateBittrex` before anything reads them. -/
def Globals.initial : Globals :=
  { pairConstraintMap := CMap.New, coinConstraintMap := CMap.New,
    balanceMap := CMap.New, inst := none, once := false }

/-- Modelled from the spec: the result type of `utils.GetExchangeDataFromJSON` is
not among the sources; spec §6 describes the snapshot as the full CoinConstraint
and PairConstraint collections keyed by registry ID, and `InitData` reads its
fields `CoinConstraint` and `PairConstraint`. -/
structure ExchangeData where
  CoinConstraint : CMap CoinConstraint
  PairConstraint : CMap PairConstraint
deriving DecidableEq, Repr

/-- What the adapter calls but this file does not define: the coin and pair
registries, the snapshot loader, the constant `DEFAULT_ID`, and the two fetch
methods `GetCoinsData` / `GetPairsData` (declared elsewhere in the package).
They are parameters of the embedding. -/
structure Env where
  DEFAULT_ID : Int
  GetCoinByID : Int → Option Coin
  GetPairByID : Int → Option Pair
  GetExchangeDataFromJSON : String → ExchangeName → Option ExchangeData
  GetCoinsData : Bittrex → Globals → Except Fault Globals
  GetPairsData : Bittrex → Globals → Except Fault Globals

/-! ## Construction and initialisation -/

/-- The method `GetID`. -/
def GetID (e : Bittrex) : Int := e.ID

/-- The method `GetName`. -/
def GetName : ExchangeName := ExchangeName.BITTREX

/-- The method `InitData`: the switch on `e.Source`. -/
def InitData (env : Env) (e : Bittrex) (g : Globals) : Except Fault Globals :=
  match e.Source with
  | DataSource.EXCHANGE_API => do
      let g1 ← env.GetCoinsData e g
      env.GetPairsData e g1
  | DataSource.MICROSERVICE_API => .ok g
  | DataSource.JSON_FILE => do
      let exchangeData ← deref (env.GetExchangeDataFromJSON e.SourceURI GetName)
      .ok { g with coinConstraintMap := exchangeData.CoinConstraint,
                   pairConstraintMap := exchangeData.PairConstraint }
  | DataSource.PSQL => .ok g
  | DataSource.unrecognised _ => .ok g

/-- The function `CreateBittrex`: the body runs under `once.Do`, so only while the
done flag is unset; the result is the pointer `instance` and the new package
state. -/
def CreateBittrex (env : Env) (config : Option Config) (g : Globals) :
    Except Fault (Option Bittrex × Globals) :=
  if g.once then .ok (g.inst, g)
  else do
    let cfg ← deref config
    let e : Bittrex :=
      { ID := env.DEFAULT_ID, Name := "Bittrex", Website := "https://www.bittrex.com/",
        API_KEY := cfg.API_KEY, API_SECRET := cfg.API_SECRET,
        Source := cfg.Source, SourceURI := cfg.SourceURI }
    let g1 : Globals :=
      { g with inst := some e, balanceMap := CMap.New,
               coinConstraintMap := CMap.New, pairConstraintMap := CMap.New }
    let g2 ← InitData env e g1
    .ok (g2.inst, { g2 with once := true })

/-- The method `UpdateConstraint`. -/
def UpdateConstraint (env : Env) (e : Bittrex) (g : Globals) : Except Fault Globals := do
  let g1 ← env.GetCoinsData e g
  env.GetPairsData e g1

/-! ## Exchange information -/

/-- The method `GetBalance`. -/
def GetBalance (g : Globals) (coin : Coin) : Float64 :=
  match g.balanceMap.Get coin.Code with
  | some tmp => tmp
  | none => Float64.zero

/-! ## Coins on the exchange -/

/-- The method `GetCoinConstraint`; `none` is the nil pointer. -/
def GetCoinConstraint (g : Globals) (coin : Coin) : Option CoinConstraint :=
  match g.coinConstraintMap.Get (Sprintf_d coin.ID) with
  | some tmp => some tmp
  | none => none

/-- The method `SetCoinConstraint`. -/
def SetCoinConstraint (g : Globals) (coinConstraint : CoinConstraint) : Globals :=
  { g with coinConstraintMap :=
      g.coinConstraintMap.Set (Sprintf_d coinConstraint.CoinID) coinConstraint }

/-- The slice `keySort` of `GetCoins` after `sort.Ints`: every key of the coin map
through `strconv.Atoi`, sorted. -/
def GetCoins.keySort (g : Globals) : List Int :=
  sortInts (g.coinConstraintMap.Keys.map Atoi)

/-- The method `GetCoins`: one `coin.GetCoinByID(key)` appended per sorted key. -/
def GetCoins (env : Env) (g : Globals) : List (Option Coin) :=
  (GetCoins.keySort g).map env.GetCoinByID

/-- The method `GetSymbolByCoin`. -/
def GetSymbolByCoin (g : Globals) (coin : Coin) : String :=
  let key := Sprintf_d coin.ID
  match g.coinConstraintMap.Get key with
  | some cc => cc.ExSymbol
  | none => ""

/-- The loop of `GetCoinBySymbol` over the remaining keys. -/
def GetCoinBySymbol.loop (m : CMap CoinConstraint) (symbol : String) :
    List String → Option Coin
  | [] => none
  | id :: rest =>
    match m.Get id with
    | some cc => if cc.ExSymbol = symbol then cc.Coin else GetCoinBySymbol.loop m symbol rest
    | none => GetCoinBySymbol.loop m symbol rest

/-- The method `GetCoinBySymbol`: the `Coin` pointer of the first record, in
`Keys()` order, whose `ExSymbol` is `symbol`; nil when there is none. -/
def GetCoinBySymbol (g : Globals) (symbol : String) : Option Coin :=
  GetCoinBySymbol.loop g.coinConstraintMap symbol g.coinConstraintMap.Keys

/-- The method `DeleteCoin`. -/
def DeleteCoin (g : Globals) (coin : Coin) : Globals :=
  { g with coinConstraintMap := g.coinConstraintMap.Remove (Sprintf_d coin.ID) }

/-! ## Pairs on the exchange -/

/-- The method `GetPairConstraint`; `none` is the nil pointer. -/
def GetPairConstraint (g : Globals) (pair : Pair) : Option PairConstraint :=
  match g.pairConstraintMap.Get (Sprintf_d pair.ID) with
  | some tmp => some tmp
  | none => none

/-- The method `SetPairConstraint`. -/
def SetPairConstraint (g : Globals) (pairConstraint : PairConstraint) : Globals :=
  { g with pairConstraintMap :=
      g.pairConstraintMap.Set (Sprintf_d pairConstraint.PairID) pairConstraint }

/-- The slice `keySort` of `GetPairs` after `sort.Ints`. -/
def GetPairs.keySort (g : Globals) : List Int :=
  sortInts (g.pairConstraintMap.Keys.map Atoi)

/-- The method `GetPairs`: one `pair.GetPairByID(key)` appended per sorted key. -/
def GetPairs (env : Env) (g : Globals) : List (Option Pair) :=
  (GetPairs.keySort g).map env.GetPairByID

/-- The loop of `GetPairBySymbol` over the remaining keys. -/
def GetPairBySymbol.loop (m : CMap PairConstraint) (symbol : String) :
    List String → Option Pair
  | [] => none
  | id :: rest =>
    match m.Get id with
    | some pc => if pc.ExSymbol = symbol then pc.Pair else GetPairBySymbol.loop m symbol rest
    | none => GetPairBySymbol.loop m symbol rest

/-- The method `GetPairBySymbol`. -/
def GetPairBySymbol (g : Globals) (symbol : String) : Option Pair :=
  GetPairBySymbol.loop g.pairConstraintMap symbol g.pairConstraintMap.Keys

/-- The method `GetSymbolByPair`. -/
def GetSymbolByPair (g : Globals) (pair : Pair) : String :=
  match GetPairConstraint g pair with
  | some pairConstraint => pairConstraint.ExSymbol
  | none => ""

/-- The method `HasPair`. -/
def HasPair (g : Globals) (pair : Pair) : Bool :=
  g.pairConstraintMap.Has (Sprintf_d pair.ID)

/-- The method `DeletePair`. -/
def DeletePair (g : Globals) (pair : Pair) : Globals :=
  { g with pairConstraintMap := g.pairConstraintMap.Remove (Sprintf_d pair.ID) }

/-- The method `GetTradingWebURL`. -/
def GetTradingWebURL (g : Globals) (pair : Pair) : String :=
  "https://bittrex.com/Market/Index?MarketName=" ++ GetSymbolByPair g pair

/-! ## Coin constraint accessors

Each reads one field through the pointer returned by `GetCoinConstraint`, with
no nil check. -/

/-- The method `GetTxFee`. -/
def GetTxFee (g : Globals) (coin : Coin) : Except Fault Float64 := do
  let coinConstraint ← deref (GetCoinConstraint g coin)
  .ok coinConstraint.TxFee

/-- The method `CanWithdraw`. -/
def CanWithdraw (g : Globals) (coin : Coin) : Except Fault Bool := do
  let coinConstraint ← deref (GetCoinConstraint g coin)
  .ok coinConstraint.Withdraw

/-- The method `CanDeposit`. -/
def CanDeposit (g : Globals) (coin : Coin) : Except Fault Bool := do
  let coinConstraint ← deref (GetCoinConstraint g coin)
  .ok coinConstraint.Deposit

/-- The method `GetConfirmation`. -/
def GetConfirmation (g : Globals) (coin : Coin) : Except Fault Int := do
  let coinConstraint ← deref (GetCoinConstraint g coin)
  .ok coinConstraint.Confirmation

/-! ## Pair constraint accessors -/

/-- The method `GetFee`. -/
def GetFee (g : Globals) (pair : Pair) : Except Fault Float64 := do
  let pairConstraint ← deref (GetPairConstraint g pair)
  .ok pairConstraint.TakerFee

/-- The method `GetLotSize`. -/
def GetLotSize (g : Globals) (pair : Pair) : Except Fault Float64 := do
  let pairConstraint ← deref (GetPairConstraint g pair)
  .ok pairConstraint.LotSize

/-- The method `GetPriceFilter`. -/
def GetPriceFilter (g : Globals) (pair : Pair) : Except Fault Float64 := do
  let pairConstraint ← deref (GetPairConstraint g pair)
  .ok pairConstraint.PriceFilter

/-! ## Sequences of administrative calls

The states a store can reach are those produced by a sequence of the four
mutators; a sequence is a list of calls, applied from left to right. -/

/-- One call of `SetCoinConstraint`, `DeleteCoin`, `SetPairConstraint` or
`DeletePair`, with its argument. -/
inductive StoreOp where
  | setCoin (coinConstraint : CoinConstraint)
  | deleteCoin (coin : Coin)
  | setPair (pairConstraint : PairConstraint)
  | deletePair (pair : Pair)
deriving DecidableEq, Repr

/-- The effect of one call on the package state. -/
def StoreOp.apply (g : Globals) : StoreOp → Globals
  | StoreOp.setCoin coinConstraint => SetCoinConstraint g coinConstraint
  | StoreOp.deleteCoin coin => DeleteCoin g coin
  | StoreOp.setPair pairConstraint => SetPairConstraint g pairConstraint
  | StoreOp.deletePair pair => DeletePair g pair

/-- The effect of a sequence of calls, first call first. -/
def runOps (ops : List StoreOp) (g : Globals) : Globals :=
  ops.foldl StoreOp.apply g

/-- The values a Go `int` (64-bit) can hold. -/
def isInt (n : Int) : Prop := minInt ≤ n ∧ n ≤ maxInt

instance (n : Int) : Decidable (isInt n) := by
  unfold isInt
  infer_instance

/-- The ID passed in a call is a Go `int`. -/
def StoreOp.inRange : StoreOp → Prop
  | StoreOp.setCoin coinConstraint => isInt coinConstraint.CoinID
  | StoreOp.deleteCoin coin => isInt coin.ID
  | StoreOp.setPair pairConstraint => isInt pairConstraint.PairID
  | StoreOp.deletePair pair => isInt pair.ID

/-- The coin ID `id` has been set by a call of the sequence and not deleted by a
later call. -/
def CoinSetAndNotDeleted (ops : List StoreOp) (id : Int) : Prop :=
  ∃ (before : List StoreOp) (R : CoinConstraint) (after : List StoreOp),
    ops = before ++ StoreOp.setCoin R :: after ∧ R.CoinID = id ∧
    ∀ c : Coin, StoreOp.deleteCoin c ∈ after → c.ID ≠ id

/-- The pair ID `id` has been set by a call of the sequence and not deleted by a
later call. -/
def PairSetAndNotDeleted (ops : List StoreOp) (id : Int) : Prop :=
  ∃ (before : List StoreOp) (R : PairConstraint) (after : List StoreOp),
    ops = before ++ StoreOp.setPair R :: after ∧ R.PairID = id ∧
    ∀ p : Pair, StoreOp.deletePair p ∈ after → p.ID ≠ id

/-- No two coin records held under different keys have the same `ExSymbol`. -/
def CoinSymbolsUnique (g : Globals) : Prop :=
  ∀ e1 ∈ g.coinConstraintMap.entries, ∀ e2 ∈ g.coinConstraintMap.entries,
    e1.2.ExSymbol = e2.2.ExSymbol → e1.1 = e2.1

/-- No two pair records held under different keys have the same `ExSymbol`. -/
def PairSymbolsUnique (g : Globals) : Prop :=
  ∀ e1 ∈ g.pairConstraintMap.entries, ∀ e2 ∈ g.pairConstraintMap.entries,
    e1.2.ExSymbol = e2.2.ExSymbol → e1.1 = e2.1

instance (g : Globals) : Decidable (CoinSymbolsUnique g) := by
  unfold CoinSymbolsUnique
  infer_instance

instance (g : Globals) : Decidable (PairSymbolsUnique g) := by
  unfold PairSymbolsUnique
  infer_instance

/-- The number of coin records whose `ExSymbol` is `symbol`: the records
`GetCoinBySymbol` can match. -/
def coinSymbolMatches (g : Globals) (symbol : String) : Nat :=
  (g.coinConstraintMap.entries.filter (fun e => e.2.ExSymbol == symbol)).length

/-- The number of pair records whose `ExSymbol` is `symbol`. -/
def pairSymbolMatches (g : Globals) (symbol : String) : Nat :=
  (g.pairConstraintMap.entries.filter (fun e => e.2.ExSymbol == symbol)).length

/-- The call writes no symbol that a record under another key already has:
a `SetCoinConstraint` / `SetPairConstraint` whose `ExSymbol` is new, or is
that of the record it replaces. -/
def StoreOp.symbolFresh (g : Globals) : StoreOp → Prop
  | StoreOp.setCoin R =>
      ∀ e ∈ g.coinConstraintMap.entries, e.2.ExSymbol = R.ExSymbol → e.1 = Sprintf_d R.CoinID
  | StoreOp.deleteCoin _ => True
  | StoreOp.setPair R =>
      ∀ e ∈ g.pairConstraintMap.entries, e.2.ExSymbol = R.ExSymbol → e.1 = Sprintf_d R.PairID
  | StoreOp.deletePair _ => True

/-- Every call of the sequence, at the state it is made in, writes no symbol that
a record under another key already has. -/
def symbolsKeptFresh : List StoreOp → Globals → Prop
  | [], _ => True
  | op :: rest, g => op.symbolFresh g ∧ symbolsKeptFresh rest (op.apply g)

instance StoreOp.decidableSymbolFresh (g : Globals) :
    (op : StoreOp) → Decidable (op.symbolFresh g)
  | StoreOp.setCoin R =>
      inferInstanceAs (Decidable (∀ e ∈ g.coinConstraintMap.entries,
        e.2.ExSymbol = R.ExSymbol → e.1 = Sprintf_d R.CoinID))
  | StoreOp.deleteCoin _ => inferInstanceAs (Decidable True)
  | StoreOp.setPair R =>
      inferInstanceAs (Decidable (∀ e ∈ g.pairConstraintMap.entries,
        e.2.ExSymbol = R.ExSymbol → e.1 = Sprintf_d R.PairID))
  | StoreOp.deletePair _ => inferInstanceAs (Decidable True)

instance decidableSymbolsKeptFresh :
    (ops : List StoreOp) → (g : Globals) → Decidable (symbolsKeptFresh ops g)
  | [], _ => inferInstanceAs (Decidable True)
  | op :: rest, g =>
      @instDecidableAnd _ _ (StoreOp.decidableSymbolFresh g op)
        (decidableSymbolsKeptFresh rest (op.apply g))

instance StoreOp.decidableInRange : (op : StoreOp) → Decidable op.inRange
  | StoreOp.setCoin R => inferInstanceAs (Decidable (isInt R.CoinID))
  | StoreOp.deleteCoin c => inferInstanceAs (Decidable (isInt c.ID))
  | StoreOp.setPair R => inferInstanceAs (Decidable (isInt R.PairID))
  | StoreOp.deletePair p => inferInstanceAs (Decidable (isInt p.ID))

/-- The keys of a map written through the mutators with Go `int` IDs: no key is
repeated and each is the decimal rendering of an `int`. -/
def KeysWellFormed (keys : List String) : Prop :=
  keys.Nodup ∧ ∀ key ∈ keys, ∃ n : Int, isInt n ∧ key = Sprintf_d n

/-- The results of a sequence of `CreateBittrex` calls, one config per call, and
the package state after the last. -/
def createAll (env : Env) : List (Option Config) → Globals →
    Except Fault (List (Option Bittrex) × Globals)
  | [], g => .ok ([], g)
  | config :: rest, g => do
      let (e, g1) ← CreateBittrex env config g
      let (es, g2) ← createAll env rest g1
      .ok (e :: es, g2)

/-! ## Sample data

A small registry and a few records, used to evaluate the definitions. -/

/-- The coin `Coin{ID: 1, Code: "BTC"}`. -/
def btc : Coin := { ID := 1, Code := "BTC" }

/-- The coin `Coin{ID: 2, Code: "ETH"}`. -/
def eth : Coin := { ID := 2, Code := "ETH" }

/-- The pair `Pair{ID: 10}` with base BTC and quote ETH. -/
def btcEth : Pair := { ID := 10, Base := btc, Quote := eth }

/-- An environment whose registries hold exactly `btc`, `eth` and `btcEth`, with no
snapshot to load and with fetch methods that fault when called. -/
def sampleEnv : Env :=
  { DEFAULT_ID := 0
    GetCoinByID := fun id => if id = 1 then some btc else if id = 2 then some eth else none
    GetPairByID := fun id => if id = 10 then some btcEth else none
    GetExchangeDataFromJSON := fun _ _ => none
    GetCoinsData := fun _ _ => .error Fault.nilPointerDereference
    GetPairsData := fun _ _ => .error Fault.nilPointerDereference }

/-- The record `CoinConstraint{CoinID: 1, ExSymbol: "BTC", Withdraw: true}`, every
other field at its zero value (the `Coin` pointer nil). -/
def btcConstraint : CoinConstraint :=
  { CoinID := 1, Coin := none, ExSymbol := "BTC", TxFee := Float64.zero,
    Withdraw := true, Deposit := false, Confirmation := 0 }

/-- The record `PairConstraint{PairID: 10, ExSymbol: "BTC-ETH", LotSize: 0.001}`,
every other field at its zero value (the `Pair` pointer nil). -/
def btcEthConstraint : PairConstraint :=
  { PairID := 10, Pair := none, ExSymbol := "BTC-ETH", TakerFee := Float64.zero,
    LotSize := Float64.milli, PriceFilter := Float64.zero }

/-- The store of the end-to-end scenario of spec §8: `btcConstraint` and
`btcEthConstraint` set on empty maps. -/
def scenarioStore : Globals :=
  SetPairConstraint (SetCoinConstraint Globals.initial btcConstraint) btcEthConstraint

/-- A record for coin ID 7, which `sampleEnv` does not register. -/
def orphanCoinConstraint : CoinConstraint :=
  { CoinID := 7, Coin := none, ExSymbol := "XYZ", TxFee := Float64.zero,
    Withdraw := false, Deposit := false, Confirmation := 0 }

/-- A record for pair ID 99, which `sampleEnv` does not register. -/
def orphanPairConstraint : PairConstraint :=
  { PairID := 99, Pair := none, ExSymbol := "XYZ-BTC", TakerFee := Float64.zero,
    LotSize := Float64.zero, PriceFilter := Float64.zero }

/-- The scenario store after two more writes: records for the unregistered coin 7
and the unregistered pair 99. -/
def orphanStore : Globals :=
  SetPairConstraint (SetCoinConstraint scenarioStore orphanCoinConstraint) orphanPairConstraint

/-- A configuration selecting the microservice strategy. -/
def microserviceConfig : Config :=
  { API_KEY := "", API_SECRET := "", Source := DataSource.MICROSERVICE_API, SourceURI := "" }

/-- An adapter value configured with the microservice strategy. -/
def microserviceAdapter : Bittrex :=
  { ID := 0, Name := "Bittrex", Website := "https://www.bittrex.com/",
    API_KEY := "", API_SECRET := "", Source := DataSource.MICROSERVICE_API, SourceURI := "" }

/-- The scenario store with a balance of `0.001` recorded under the code `"BTC"`. -/
def fundedStore : Globals :=
  { scenarioStore with balanceMap := (CMap.New).Set "BTC" Float64.milli }

/-- The scenario records with their registry pointers filled in: the coin record
points to `btc`, the pair record to `btcEth`. -/
def linkedStore : Globals :=
  SetPairConstraint
    (SetCoinConstraint Globals.initial { btcConstraint with Coin := some btc })
    { btcEthConstraint with Pair := some btcEth }

/-- A second record with the symbol `"BTC"`, under coin ID 2. -/
def btcCloneConstraint : CoinConstraint :=
  { CoinID := 2, Coin := none, ExSymbol := "BTC", TxFee := Float64.zero,
    Withdraw := false, Deposit := false, Confirmation := 0 }

/-- A second record with the symbol `"BTC-ETH"`, under pair ID 11. -/
def btcEthCloneConstraint : PairConstraint :=
  { PairID := 11, Pair := none, ExSymbol := "BTC-ETH", TakerFee := Float64.zero,
    LotSize := Float64.zero, PriceFilter := Float64.zero }

/-- Four calls after which two coin records and two pair records share a symbol. -/
def clashOps : List StoreOp :=
  [StoreOp.setCoin btcConstraint, StoreOp.setCoin btcCloneConstraint,
   StoreOp.setPair btcEthConstraint, StoreOp.setPair btcEthCloneConstraint]

/-- The snapshot holding the maps of `orphanStore`. -/
def orphanSnapshot : ExchangeData :=
  { CoinConstraint := orphanStore.coinConstraintMap,
    PairConstraint := orphanStore.pairConstraintMap }

/-- An environment whose live fetch writes the two scenario records and whose
snapshot loader returns `orphanSnapshot`. -/
def liveEnv : Env :=
  { sampleEnv with
    GetExchangeDataFromJSON := fun _ _ => some orphanSnapshot
    GetCoinsData := fun _ g => .ok (SetCoinConstraint g btcConstraint)
    GetPairsData := fun _ g => .ok (SetPairConstraint g btcEthConstraint) }

/-- An adapter value configured with the snapshot-file strategy. -/
def snapshotAdapter : Bittrex :=
  { microserviceAdapter with Source := DataSource.JSON_FILE, SourceURI := "./data" }

/-- An adapter value configured with the live-api strategy. -/
def liveAdapter : Bittrex :=
  { microserviceAdapter with Source := DataSource.EXCHANGE_API }

/-- A configuration selecting the snapshot-file strategy. -/
def snapshotConfig : Config :=
  { microserviceConfig with Source := DataSource.JSON_FILE, SourceURI := "./data" }

/-- Calls with a zero and a negative ID: set coins 5, 0 and -3, set coin 5 again,
delete coin 0. -/
def mixedOps : List StoreOp :=
  [StoreOp.setCoin { btcConstraint with CoinID := 5 },
   StoreOp.setCoin { btcConstraint with CoinID := 0, ExSymbol := "ZERO" },
   StoreOp.setCoin { btcConstraint with CoinID := -3, ExSymbol := "NEG" },
   StoreOp.setCoin { btcConstraint with CoinID := 5, ExSymbol := "FIVE" },
   StoreOp.deleteCoin { btc with ID := 0 },
   StoreOp.setPair btcEthConstraint,
   StoreOp.setPair { btcEthConstraint with PairID := -2, ExSymbol := "NEG-PAIR" },
   StoreOp.deletePair btcEth]

/-- The records of `orphanStore` written in the opposite order: pair 99, coin 7,
coin 1, pair 10. -/
def descendingStore : Globals :=
  SetPairConstraint
    (SetCoinConstraint
      (SetCoinConstraint (SetPairConstraint Globals.initial orphanPairConstraint)
        orphanCoinConstraint)
      btcConstraint)
    btcEthConstraint

/-! ## Lemmas on `CMap` -/

namespace CMap

variable {V : Type}

theorem lookup_upsert_self (k : String) (v : V) (l : List (String × V)) :
    lookup k (upsert k v l) = some v := by
  induction l with
  | nil => simp [upsert, lookup]
  | cons hd tl ih =>
    obtain ⟨k', v'⟩ := hd
    by_cases h : k' = k
    · simp [upsert, lookup, h]
    · simp [upsert, lookup, h, ih]

theorem lookup_eq_none_of_not_mem (k : String) (l : List (String × V))
    (h : k ∉ l.map Prod.fst) : lookup k l = none := by
  induction l with
  | nil => rfl
  | cons hd tl ih =>
    obtain ⟨k', v'⟩ := hd
    simp only [List.map_cons, List.mem_cons, not_or] at h
    have hne : ¬ k' = k := fun e => h.1 e.symm
    simp [lookup, hne, ih h.2]

theorem lookup_mem (k : String) (v : V) (l : List (String × V))
    (h : lookup k l = some v) : (k, v) ∈ l := by
  induction l with
  | nil => simp [lookup] at h
  | cons hd tl ih =>
    obtain ⟨k', v'⟩ := hd
    by_cases hk : k' = k
    · simp [lookup, hk] at h
      simp [hk, h]
    · simp [lookup, hk] at h
      exact List.mem_cons_of_mem _ (ih h)

theorem lookup_of_mem_nodup (k : String) (v : V) (l : List (String × V))
    (hnd : (l.map Prod.fst).Nodup) (h : (k, v) ∈ l) : lookup k l = some v := by
  induction l with
  | nil => simp at h
  | cons hd tl ih =>
    obtain ⟨k', v'⟩ := hd
    simp only [List.map_cons, List.nodup_cons] at hnd
    rcases List.mem_cons.mp h with heq | hmem
    · cases heq
      simp [lookup]
    · have hne : ¬ k' = k := by
        intro e
        subst e
        exact hnd.1 (List.mem_map_of_mem Prod.fst hmem)
      simp [lookup, hne, ih hnd.2 hmem]

theorem lookup_remove_self (k : String) (l : List (String × V)) :
    lookup k (l.filter (fun e => !(e.1 == k))) = none := by
  apply lookup_eq_none_of_not_mem
  intro hmem
  obtain ⟨e, he, hk⟩ := List.mem_map.mp hmem
  have := (List.mem_filter.mp he).2
  simp [hk] at this

theorem Get_Set_self (m : CMap V) (k : String) (v : V) : (m.Set k v).Get k = some v :=
  lookup_upsert_self k v m.entries

theorem Get_Remove_self (m : CMap V) (k : String) : (m.Remove k).Get k = none :=
  lookup_remove_self k m.entries

theorem Remove_Remove (m : CMap V) (k : String) : (m.Remove k).Remove k = m.Remove k := by
  simp [Remove, List.filter_filter]

theorem Remove_of_not_mem (m : CMap V) (k : String) (h : k ∉ m.Keys) : m.Remove k = m := by
  obtain ⟨l⟩ := m
  simp only [Remove, CMap.mk.injEq, List.filter_eq_self]
  intro e he
  have hne : e.1 ≠ k := fun heq => h (heq ▸ List.mem_map_of_mem Prod.fst he)
  simpa using hne

theorem Get_eq_none_of_not_mem (m : CMap V) (k : String) (h : k ∉ m.Keys) : m.Get k = none :=
  lookup_eq_none_of_not_mem k m.entries h

theorem Get_of_mem (m : CMap V) (k : String) (v : V) (hnd : m.Keys.Nodup)
    (h : (k, v) ∈ m.entries) : m.Get k = some v :=
  lookup_of_mem_nodup k v m.entries hnd h

theorem mem_of_Get (m : CMap V) (k : String) (v : V) (h : m.Get k = some v) :
    (k, v) ∈ m.entries :=
  lookup_mem k v m.entries h

theorem lookup_upsert_ne (k k1 : String) (v : V) (l : List (String × V)) (h : k1 ≠ k) :
    lookup k1 (upsert k v l) = lookup k1 l := by
  induction l with
  | nil =>
    have hne : ¬ k = k1 := fun e => h e.symm
    simp [upsert, lookup, hne]
  | cons hd tl ih =>
    obtain ⟨k', v'⟩ := hd
    by_cases hk : k' = k
    · subst hk
      have hne : ¬ k' = k1 := fun e => h e.symm
      simp [upsert, lookup, hne]
    · by_cases hk1 : k' = k1
      · subst hk1
        simp [upsert, lookup, hk]
      · simp [upsert, lookup, hk, hk1, ih]

theorem lookup_remove_ne (k k1 : String) (l : List (String × V)) (h : k1 ≠ k) :
    lookup k1 (l.filter (fun e => !(e.1 == k))) = lookup k1 l := by
  induction l with
  | nil => rfl
  | cons hd tl ih =>
    obtain ⟨k', v'⟩ := hd
    by_cases hk : k' = k
    · subst hk
      have hne : ¬ k' = k1 := fun e => h e.symm
      simp [List.filter_cons, lookup, hne, ih]
    · by_cases hk1 : k' = k1
      · subst hk1
        simp [List.filter_cons, lookup, hk]
      · simp [List.filter_cons, lookup, hk, hk1, ih]

theorem mem_keys_upsert (k k1 : String) (v : V) (l : List (String × V)) :
    k1 ∈ (upsert k v l).map Prod.fst ↔ k1 = k ∨ k1 ∈ l.map Prod.fst := by
  induction l with
  | nil => simp [upsert]
  | cons hd tl ih =>
    obtain ⟨k', v'⟩ := hd
    by_cases hk : k' = k
    · subst hk
      simp [upsert]
    · simp only [upsert, hk, if_false, List.map_cons, List.mem_cons, ih]
      tauto

theorem mem_keys_remove (k k1 : String) (l : List (String × V)) :
    k1 ∈ (l.filter (fun e => !(e.1 == k))).map Prod.fst ↔ k1 ≠ k ∧ k1 ∈ l.map Prod.fst := by
  simp only [List.mem_map, List.mem_filter]
  constructor
  · rintro ⟨e, ⟨he, hne⟩, rfl⟩
    exact ⟨by simpa using hne, e, he, rfl⟩
  · rintro ⟨hne, e, he, rfl⟩
    exact ⟨e, ⟨he, by simpa using hne⟩, rfl⟩

theorem mem_upsert (k : String) (v : V) (l : List (String × V)) (x : String × V)
    (h : x ∈ upsert k v l) : x = (k, v) ∨ x ∈ l := by
  induction l with
  | nil =>
    simp only [upsert, List.mem_singleton] at h
    exact Or.inl h
  | cons hd tl ih =>
    obtain ⟨k', v'⟩ := hd
    by_cases hk : k' = k
    · simp only [upsert, hk, if_true, List.mem_cons] at h
      rcases h with h | h
      · exact Or.inl h
      · exact Or.inr (List.mem_cons_of_mem _ h)
    · simp only [upsert, hk, if_false, List.mem_cons] at h
      rcases h with h | h
      · exact Or.inr (h ▸ List.mem_cons_self _ _)
      · rcases ih h with h1 | h1
        · exact Or.inl h1
        · exact Or.inr (List.mem_cons_of_mem _ h1)

theorem nodup_keys_upsert (k : String) (v : V) (l : List (String × V))
    (h : (l.map Prod.fst).Nodup) : ((upsert k v l).map Prod.fst).Nodup := by
  induction l with
  | nil => simp [upsert]
  | cons hd tl ih =>
    obtain ⟨k', v'⟩ := hd
    simp only [List.map_cons, List.nodup_cons] at h
    by_cases hk : k' = k
    · subst hk
      simp only [upsert, if_true, List.map_cons, List.nodup_cons]
      exact h
    · have hnot : k' ∉ (upsert k v tl).map Prod.fst := by
        rw [mem_keys_upsert]
        rintro (h1 | h1)
        · exact hk h1
        · exact h.1 h1
      simp only [upsert, hk, if_false, List.map_cons, List.nodup_cons]
      exact ⟨hnot, ih h.2⟩

theorem nodup_keys_remove (k : String) (l : List (String × V))
    (h : (l.map Prod.fst).Nodup) :
    ((l.filter (fun e => !(e.1 == k))).map Prod.fst).Nodup :=
  List.Nodup.sublist (List.Sublist.map Prod.fst (List.filter_sublist l)) h

theorem length_upsert_of_mem (k : String) (v : V) (l : List (String × V))
    (h : k ∈ l.map Prod.fst) : (upsert k v l).length = l.length := by
  induction l with
  | nil => simp at h
  | cons hd tl ih =>
    obtain ⟨k', v'⟩ := hd
    by_cases hk : k' = k
    · simp [upsert, hk]
    · simp only [List.map_cons, List.mem_cons] at h
      rcases h with h | h
      · exact absurd h.symm hk
      · simp [upsert, hk, ih h]

theorem Get_Set_ne (m : CMap V) (k k1 : String) (v : V) (h : k1 ≠ k) :
    (m.Set k v).Get k1 = m.Get k1 :=
  lookup_upsert_ne k k1 v m.entries h

theorem Get_Remove_ne (m : CMap V) (k k1 : String) (h : k1 ≠ k) :
    (m.Remove k).Get k1 = m.Get k1 :=
  lookup_remove_ne k k1 m.entries h

theorem mem_Keys_Set (m : CMap V) (k k1 : String) (v : V) :
    k1 ∈ (m.Set k v).Keys ↔ k1 = k ∨ k1 ∈ m.Keys :=
  mem_keys_upsert k k1 v m.entries

theorem mem_Keys_Remove (m : CMap V) (k k1 : String) :
    k1 ∈ (m.Remove k).Keys ↔ k1 ≠ k ∧ k1 ∈ m.Keys :=
  mem_keys_remove k k1 m.entries

theorem mem_entries_Set (m : CMap V) (k : String) (v : V) (x : String × V)
    (h : x ∈ (m.Set k v).entries) : x = (k, v) ∨ x ∈ m.entries :=
  mem_upsert k v m.entries x h

theorem mem_entries_Remove (m : CMap V) (k : String) (x : String × V)
    (h : x ∈ (m.Remove k).entries) : x ∈ m.entries :=
  (List.mem_filter.mp h).1

theorem Nodup_Keys_Set (m : CMap V) (k : String) (v : V) (h : m.Keys.Nodup) :
    (m.Set k v).Keys.Nodup :=
  nodup_keys_upsert k v m.entries h

theorem Nodup_Keys_Remove (m : CMap V) (k : String) (h : m.Keys.Nodup) :
    (m.Remove k).Keys.Nodup :=
  nodup_keys_remove k m.entries h

theorem Has_iff_mem_Keys (m : CMap V) (k : String) : m.Has k = true ↔ k ∈ m.Keys := by
  constructor
  · intro h
    cases hget : m.Get k with
    | none => simp [Has, hget] at h
    | some v => exact List.mem_map_of_mem Prod.fst (mem_of_Get m k v hget)
  · intro h
    by_contra hno
    cases hget : m.Get k with
    | none =>
      obtain ⟨x, hx, hk⟩ := List.mem_map.mp h
      have : ∀ (l : List (String × V)), x ∈ l → lookup k l ≠ none := by
        intro l
        induction l with
        | nil => intro hx; simp at hx
        | cons hd tl ih =>
          intro hx
          obtain ⟨k', v'⟩ := hd
          by_cases hk' : k' = k
          · simp [lookup, hk']
          · rcases List.mem_cons.mp hx with h1 | h1
            · rw [h1] at hk
              exact absurd hk hk'
            · simpa [lookup, hk'] using ih h1
      exact this m.entries hx hget
    | some v => simp [Has, hget] at hno

end CMap

/-! ## Lemmas on `sortInts` -/

theorem sortInts_sorted (xs : List Int) : (sortInts xs).Sorted (fun a b => a ≤ b) :=
  List.sorted_insertionSort (fun a b : Int => a ≤ b) xs

theorem sortInts_perm (xs : List Int) : (sortInts xs).Perm xs :=
  List.perm_insertionSort (fun a b : Int => a ≤ b) xs

/-! ## Lemmas on decimal keys -/

theorem digitChar_isDigit (k : Nat) (hk : k < 10) : (Nat.digitChar k).isDigit = true := by
  interval_cases k <;> decide

theorem digitChar_value (k : Nat) (hk : k < 10) : (Nat.digitChar k).toNat - 48 = k := by
  interval_cases k <;> decide

theorem digitsValue_append_single (ds : List Char) (d : Char) :
    digitsValue (ds ++ [d]) = digitsValue ds * 10 + (d.toNat - 48) := by
  simp [digitsValue, List.foldl_append]

/-- The value and shape of what `Nat.toDigitsCore 10` writes when its fuel `k`
exceeds the number: a non-empty block of decimal digits, worth the number
printed, in front of the characters already produced. -/
theorem toDigitsCore_decimal (k n : Nat) (rest : List Char) (hk : n < k) :
    ∃ block : List Char, digitsValue block = n ∧ (∀ d ∈ block, d.isDigit = true) ∧
      block ≠ [] ∧ Nat.toDigitsCore 10 k n rest = block ++ rest := by
  induction k generalizing n rest with
  | zero => omega
  | succ k ih =>
    have hmod : n % 10 < 10 := Nat.mod_lt _ (by decide)
    by_cases hq : n / 10 = 0
    · refine ⟨[Nat.digitChar (n % 10)], ?_, ?_, by simp, ?_⟩
      · have hone : digitsValue [Nat.digitChar (n % 10)] =
            (Nat.digitChar (n % 10)).toNat - 48 := by
          simp [digitsValue]
        rw [hone, digitChar_value _ hmod]
        omega
      · intro d hd
        rw [List.mem_singleton.mp hd]
        exact digitChar_isDigit _ hmod
      · simp [Nat.toDigitsCore, hq]
    · have hlt : n / 10 < k := by omega
      obtain ⟨block, hval, hdig, _, hrun⟩ := ih (n / 10) (Nat.digitChar (n % 10) :: rest) hlt
      refine ⟨block ++ [Nat.digitChar (n % 10)], ?_, ?_, by simp, ?_⟩
      · rw [digitsValue_append_single, hval, digitChar_value _ hmod]
        omega
      · intro d hd
        rcases List.mem_append.mp hd with h | h
        · exact hdig d h
        · rw [List.mem_singleton.mp h]
          exact digitChar_isDigit _ hmod
      · simp [Nat.toDigitsCore, hq, hrun]

/-- The decimal rendering of a natural number: a non-empty string of digits whose
value is the number. -/
theorem repr_spec (n : Nat) :
    ∃ ds : List Char, (Nat.repr n).toList = ds ∧ ds ≠ [] ∧
      (∀ d ∈ ds, d.isDigit = true) ∧ digitsValue ds = n := by
  obtain ⟨ds, hval, hdig, hne, hrun⟩ := toDigitsCore_decimal (n + 1) n [] (Nat.lt_succ_self n)
  refine ⟨ds, ?_, hne, hdig, hval⟩
  simp [Nat.repr, Nat.toDigits, hrun, List.asString]

theorem isDigit_ne_sign (c : Char) (h : c.isDigit = true) : c ≠ '-' ∧ c ≠ '+' := by
  constructor
  · intro e
    rw [e] at h
    exact absurd h (by decide)
  · intro e
    rw [e] at h
    exact absurd h (by decide)

theorem digits_foldl_ge (ds : List Char) : ∀ acc : Nat,
    acc ≤ ds.foldl (fun n d => n * 10 + (d.toNat - 48)) acc := by
  induction ds with
  | nil => intro acc; exact Nat.le_refl _
  | cons c cs ih =>
    intro acc
    have h := ih (acc * 10 + (c.toNat - 48))
    simp only [List.foldl_cons]
    omega

/-- On a string of decimal digits whose value fits a `uint64`, the digit loop
returns that value and no error. -/
theorem ParseUint_loop_digits (ds : List Char) : ∀ acc : Nat,
    (∀ d ∈ ds, d.isDigit = true) →
    ds.foldl (fun n d => n * 10 + (d.toNat - 48)) acc ≤ maxUint64 →
    ParseUint.loop ds acc = (ds.foldl (fun n d => n * 10 + (d.toNat - 48)) acc, none) := by
  induction ds with
  | nil => intro acc _ _; rfl
  | cons c cs ih =>
    intro acc hdig hle
    have hc : c.isDigit = true := hdig c (List.mem_cons_self _ _)
    have hrest : ∀ d ∈ cs, d.isDigit = true := fun d hd => hdig d (List.mem_cons_of_mem _ hd)
    simp only [List.foldl_cons] at hle ⊢
    have hge := digits_foldl_ge cs (acc * 10 + (c.toNat - 48))
    have hmax : maxUint64 = 18446744073709551615 := by decide
    have h1 : ¬ (acc ≥ maxUint64 / 10 + 1) := by
      rw [hmax]
      rw [hmax] at hle
      omega
    have h2 : ¬ (acc * 10 + (c.toNat - 48) > maxUint64) := by omega
    unfold ParseUint.loop
    simp only [hc, Bool.not_true, Bool.false_eq_true, if_false, h1, h2]
    exact ih _ hrest hle

theorem ParseUint_digits (ds : List Char) (hne : ds ≠ []) (hdig : ∀ d ∈ ds, d.isDigit = true)
    (hle : digitsValue ds ≤ maxUint64) : ParseUint ds = (digitsValue ds, none) := by
  have hempty : ds.isEmpty = false := by
    cases ds with
    | nil => exact absurd rfl hne
    | cons c cs => rfl
  simp only [ParseUint, hempty, Bool.false_eq_true, if_false]
  exact ParseUint_loop_digits ds 0 hdig hle

/-- Parsing the decimal key of an `int` gives the `int` back. -/
theorem Atoi_Sprintf_d (n : Int) (hlo : minInt ≤ n) (hhi : n ≤ maxInt) :
    Atoi (Sprintf_d n) = n := by
  have hmax : maxUint64 = 18446744073709551615 := by decide
  cases n with
  | ofNat m =>
    obtain ⟨ds, heq, hne, hdig, hval⟩ := repr_spec m
    have hm : ¬ (2 ^ 63 ≤ m) := by
      have : (m : Int) ≤ 2 ^ 63 - 1 := hhi
      omega
    have hparse : ParseUint ds = (m, none) := by
      rw [← hval]
      apply ParseUint_digits ds hne hdig
      rw [hval, hmax]
      omega
    cases ds with
    | nil => exact absurd rfl hne
    | cons c cs =>
      have hc := isDigit_ne_sign c (hdig c (List.mem_cons_self _ _))
      simp only [Atoi, Sprintf_d, heq, ParseInt, hc.1, hc.2, if_false, hparse]
      have hm2 : ¬ (9223372036854775808 ≤ m) := by simpa using hm
      simp [hm2]
  | negSucc m =>
    obtain ⟨ds, heq, hne, hdig, hval⟩ := repr_spec (m + 1)
    have hm : ¬ (2 ^ 63 < m + 1) := by
      have h1 : -(2 ^ 63 : Int) ≤ Int.negSucc m := hlo
      rw [Int.negSucc_eq] at h1
      omega
    have hlist : ("-" ++ Nat.repr (m + 1)).toList = '-' :: ds := by
      simp [String.toList, String.data_append, ← heq]
    have hparse : ParseUint ds = (m + 1, none) := by
      rw [← hval]
      apply ParseUint_digits ds hne hdig
      rw [hval, hmax]
      omega
    have hsign : ¬ ('-' = '+') := by decide
    simp only [Atoi, Sprintf_d, hlist, ParseInt, hsign, if_false, if_true, hparse]
    have hm2 : ¬ (9223372036854775808 < m + 1) := by simpa using hm
    simp [hm2, Int.negSucc_eq]

/-- Keys that are not the rendering of an `int`: a non-digit gives `0` unless the
digits before it already overflow a `uint64`, in which case the range error
comes first and the value is the nearest `int`. -/
theorem Atoi_edge_cases :
    Atoi "99999999999999999999x" = 9223372036854775807 ∧
    Atoi "-99999999999999999999x" = -9223372036854775808 ∧
    Atoi "9223372036854775808x" = 0 ∧
    Atoi "9223372036854775808" = 9223372036854775807 ∧
    Atoi "-9223372036854775809" = -9223372036854775808 ∧
    Atoi "" = 0 ∧ Atoi "-" = 0 ∧ Atoi "1x" = 0 ∧ Atoi "+12" = 12 ∧ Atoi "007" = 7 := by
  decide

/-- Distinct `int`s have distinct decimal keys. -/
theorem Sprintf_d_injective (a b : Int) (ha : minInt ≤ a ∧ a ≤ maxInt)
    (hb : minInt ≤ b ∧ b ≤ maxInt) (h : Sprintf_d a = Sprintf_d b) : a = b := by
  rw [← Atoi_Sprintf_d a ha.1 ha.2, ← Atoi_Sprintf_d b hb.1 hb.2, h]

theorem repr_inj (a b : Nat) (h : Nat.repr a = Nat.repr b) : a = b := by
  obtain ⟨da, hda, _, _, hva⟩ := repr_spec a
  obtain ⟨db, hdb, _, _, hvb⟩ := repr_spec b
  rw [h] at hda
  rw [← hva, ← hvb, ← hda, ← hdb]

theorem repr_ne_minus_append (a : Nat) (t : String) : Nat.repr a ≠ "-" ++ t := by
  intro h
  obtain ⟨da, hda, hne, hdig, _⟩ := repr_spec a
  have hlist : da = '-' :: t.toList := by
    rw [← hda, h]
    simp [String.toList, String.data_append]
  have hmem : '-' ∈ da := by
    rw [hlist]
    exact List.mem_cons_self _ _
  exact absurd (hdig _ hmem) (by decide)

theorem minus_append_inj (s t : String) (h : "-" ++ s = "-" ++ t) : s = t := by
  have hl : ("-" ++ s).data = ("-" ++ t).data := by rw [h]
  simp only [String.data_append, List.append_cancel_left_eq] at hl
  exact String.ext hl

/-- Different integers have different decimal keys. -/
theorem Sprintf_d_inj (a b : Int) (h : Sprintf_d a = Sprintf_d b) : a = b := by
  cases a with
  | ofNat m =>
    cases b with
    | ofNat n =>
      simp only [Sprintf_d] at h
      rw [repr_inj m n h]
    | negSucc n =>
      simp only [Sprintf_d] at h
      exact absurd h (repr_ne_minus_append m _)
  | negSucc m =>
    cases b with
    | ofNat n =>
      simp only [Sprintf_d] at h
      exact absurd h.symm (repr_ne_minus_append n _)
    | negSucc n =>
      simp only [Sprintf_d] at h
      have h1 := repr_inj _ _ (minus_append_inj _ _ h)
      have h2 : m = n := by omega
      rw [h2]

/-! ## Write-then-read -/

/-- C1: write-then-read consistency.  Right after `SetCoinConstraint(R)`,
`GetCoinConstraint(c)` for any coin `c` with `c.ID = R.CoinID` returns exactly `R`,
whatever the store held before; likewise `GetPairConstraint(p)` with
`p.ID = R.PairID` right after `SetPairConstraint(R)`. -/
theorem C1_write_then_read (g : Globals) :
    (∀ (R : CoinConstraint) (c : Coin), c.ID = R.CoinID →
      GetCoinConstraint (SetCoinConstraint g R) c = some R) ∧
    (∀ (R : PairConstraint) (p : Pair), p.ID = R.PairID →
      GetPairConstraint (SetPairConstraint g R) p = some R) := by
  constructor
  · intro R c h
    simp [GetCoinConstraint, SetCoinConstraint, h, CMap.Get_Set_self]
  · intro R p h
    simp [GetPairConstraint, SetPairConstraint, h, CMap.Get_Set_self]

/-- C1 at a concrete input: on the scenario store, which already holds a record
under coin ID 1 and pair ID 10, a new record written under the same ID is the one
read back. -/
theorem C1_write_then_read_witness :
    btc.ID = ({ btcConstraint with TxFee := Float64.milli } : CoinConstraint).CoinID ∧
    GetCoinConstraint scenarioStore btc = some btcConstraint ∧
    GetCoinConstraint (SetCoinConstraint scenarioStore { btcConstraint with TxFee := Float64.milli })
      btc = some { btcConstraint with TxFee := Float64.milli } ∧
    GetPairConstraint (SetPairConstraint scenarioStore { btcEthConstraint with ExSymbol := "BTCETH" })
      btcEth = some { btcEthConstraint with ExSymbol := "BTCETH" } :=
  ⟨by decide, by decide,
   (C1_write_then_read scenarioStore).1 { btcConstraint with TxFee := Float64.milli } btc
     (by decide),
   (C1_write_then_read scenarioStore).2 { btcEthConstraint with ExSymbol := "BTCETH" } btcEth
     (by decide)⟩

/-! ## Listing -/

/-- C2: the sequence of integer IDs that `GetCoins` resolves through the coin
registry, and that `GetPairs` resolves through the pair registry, is in
non-decreasing numeric order in every store state, whatever the enumeration order
of the map: it is the sorted rearrangement of the keys read through `Atoi`. -/
theorem C2_ids_non_decreasing (env : Env) (g : Globals) :
    (GetCoins.keySort g).Sorted (fun a b => a ≤ b) ∧
    (GetCoins.keySort g).Perm (g.coinConstraintMap.Keys.map Atoi) ∧
    GetCoins env g = (GetCoins.keySort g).map env.GetCoinByID ∧
    (GetPairs.keySort g).Sorted (fun a b => a ≤ b) ∧
    (GetPairs.keySort g).Perm (g.pairConstraintMap.Keys.map Atoi) ∧
    GetPairs env g = (GetPairs.keySort g).map env.GetPairByID :=
  ⟨sortInts_sorted _, sortInts_perm _, rfl, sortInts_sorted _, sortInts_perm _, rfl⟩

/-- C3, as the claim states it, fails: with a record stored under coin ID 7 and
pair ID 99, neither of which the registry resolves, `GetCoins` and `GetPairs`
still hold one element for that record, the nil pointer, and are as long as the
number of stored records. -/
theorem C3_unresolved_not_excluded :
    sampleEnv.GetCoinByID 7 = none ∧
    orphanStore.coinConstraintMap.Has "7" = true ∧
    orphanStore.coinConstraintMap.Count = 2 ∧
    GetCoins sampleEnv orphanStore = [some btc, none] ∧
    none ∈ GetCoins sampleEnv orphanStore ∧
    (GetCoins sampleEnv orphanStore).length = orphanStore.coinConstraintMap.Count ∧
    sampleEnv.GetPairByID 99 = none ∧
    orphanStore.pairConstraintMap.Has "99" = true ∧
    orphanStore.pairConstraintMap.Count = 2 ∧
    GetPairs sampleEnv orphanStore = [some btcEth, none] ∧
    none ∈ GetPairs sampleEnv orphanStore ∧
    (GetPairs sampleEnv orphanStore).length = orphanStore.pairConstraintMap.Count := by
  decide

/-- C3, amended: `GetCoins` and `GetPairs` return one element per stored record, in
ascending order of the IDs parsed from the stored keys: the result is the
registry lookup applied, in order, to the non-decreasing rearrangement of those
IDs, nothing being left out; so the element for a stored key is whatever the
registry returns for its ID, an ID the registry does not resolve contributes a
nil element, and the result is as long as the number of stored records. -/
theorem C3_one_element_per_record (env : Env) (g : Globals) :
    (∃ ids : List Int, ids.Sorted (fun a b => a ≤ b) ∧
      ids.Perm (g.coinConstraintMap.Keys.map Atoi) ∧
      GetCoins env g = ids.map env.GetCoinByID) ∧
    (GetCoins env g).length = g.coinConstraintMap.Count ∧
    (∀ key ∈ g.coinConstraintMap.Keys, env.GetCoinByID (Atoi key) ∈ GetCoins env g) ∧
    (∃ ids : List Int, ids.Sorted (fun a b => a ≤ b) ∧
      ids.Perm (g.pairConstraintMap.Keys.map Atoi) ∧
      GetPairs env g = ids.map env.GetPairByID) ∧
    (GetPairs env g).length = g.pairConstraintMap.Count ∧
    (∀ key ∈ g.pairConstraintMap.Keys, env.GetPairByID (Atoi key) ∈ GetPairs env g) := by
  refine ⟨⟨GetCoins.keySort g, sortInts_sorted _, sortInts_perm _, rfl⟩, ?_, ?_,
    ⟨GetPairs.keySort g, sortInts_sorted _, sortInts_perm _, rfl⟩, ?_, ?_⟩
  · simp [GetCoins, GetCoins.keySort, (sortInts_perm _).length_eq, CMap.Keys, CMap.Count]
  · intro key hkey
    apply List.mem_map_of_mem
    exact (sortInts_perm _).mem_iff.mpr (List.mem_map_of_mem Atoi hkey)
  · simp [GetPairs, GetPairs.keySort, (sortInts_perm _).length_eq, CMap.Keys, CMap.Count]
  · intro key hkey
    apply List.mem_map_of_mem
    exact (sortInts_perm _).mem_iff.mpr (List.mem_map_of_mem Atoi hkey)

/-- C3, amended, at a concrete input: a store written in the order coin 7, coin 1,
of which the registry resolves only coin 1.  The key of coin 7 yields a nil
element, and the listing is in ascending ID order: coin 1 first, the nil element
of coin 7 second. -/
theorem C3_one_element_per_record_witness :
    "7" ∈ descendingStore.coinConstraintMap.Keys ∧
    sampleEnv.GetCoinByID (Atoi "7") = none ∧
    sampleEnv.GetCoinByID (Atoi "7") ∈ GetCoins sampleEnv descendingStore ∧
    GetCoins sampleEnv descendingStore = [some btc, none] ∧
    GetCoins sampleEnv descendingStore = GetCoins sampleEnv orphanStore ∧
    (∃ ids : List Int, ids.Sorted (fun a b => a ≤ b) ∧
      ids.Perm (descendingStore.coinConstraintMap.Keys.map Atoi) ∧
      GetCoins sampleEnv descendingStore = ids.map sampleEnv.GetCoinByID) :=
  ⟨by decide, by decide,
   (C3_one_element_per_record sampleEnv descendingStore).2.2.1 "7" (by decide),
   by decide, by decide,
   (C3_one_element_per_record sampleEnv descendingStore).1⟩

/-! ## Lookup misses -/

/-- C4, evaluated on the code: on the scenario store, which holds no record for
the coin `eth` (ID 2) nor for a pair with ID 11, `GetCoinConstraint` and
`GetPairConstraint` return nil and each derived accessor then reads a field
through that nil pointer: it faults instead of returning a zero value. -/
theorem C4_accessors_fault_on_miss :
    GetCoinConstraint scenarioStore eth = none ∧
    GetTxFee scenarioStore eth = .error Fault.nilPointerDereference ∧
    CanWithdraw scenarioStore eth = .error Fault.nilPointerDereference ∧
    CanDeposit scenarioStore eth = .error Fault.nilPointerDereference ∧
    GetConfirmation scenarioStore eth = .error Fault.nilPointerDereference ∧
    GetPairConstraint scenarioStore { btcEth with ID := 11 } = none ∧
    GetFee scenarioStore { btcEth with ID := 11 } = .error Fault.nilPointerDereference ∧
    GetLotSize scenarioStore { btcEth with ID := 11 } = .error Fault.nilPointerDereference ∧
    GetPriceFilter scenarioStore { btcEth with ID := 11 } =
      .error Fault.nilPointerDereference := by
  refine ⟨by decide, rfl, rfl, rfl, rfl, by decide, rfl, rfl, rfl⟩

theorem GetCoinBySymbol_loop_none (m : CMap CoinConstraint) (symbol : String)
    (h : ∀ e ∈ m.entries, e.2.ExSymbol ≠ symbol) (ks : List String) :
    GetCoinBySymbol.loop m symbol ks = none := by
  induction ks with
  | nil => rfl
  | cons id rest ih =>
    unfold GetCoinBySymbol.loop
    cases hget : m.Get id with
    | none => simpa using ih
    | some cc =>
      have hne : ¬ cc.ExSymbol = symbol := h (id, cc) (CMap.mem_of_Get m id cc hget)
      simpa [hne] using ih

theorem GetPairBySymbol_loop_none (m : CMap PairConstraint) (symbol : String)
    (h : ∀ e ∈ m.entries, e.2.ExSymbol ≠ symbol) (ks : List String) :
    GetPairBySymbol.loop m symbol ks = none := by
  induction ks with
  | nil => rfl
  | cons id rest ih =>
    unfold GetPairBySymbol.loop
    cases hget : m.Get id with
    | none => simpa using ih
    | some pc =>
      have hne : ¬ pc.ExSymbol = symbol := h (id, pc) (CMap.mem_of_Get m id pc hget)
      simpa [hne] using ih

/-- C5: a direct lookup that misses returns an empty result.  When the coin map has
no key for `c.ID`, `GetCoinConstraint(c)` is nil and `GetSymbolByCoin(c)` is the
empty string; the same for the pair map with `GetPairConstraint` and
`GetSymbolByPair`; and when no stored record has `ExSymbol` equal to `s`,
`GetCoinBySymbol(s)` and `GetPairBySymbol(s)` are nil. -/
theorem C5_lookup_miss_is_empty (g : Globals) :
    (∀ c : Coin, Sprintf_d c.ID ∉ g.coinConstraintMap.Keys →
      GetCoinConstraint g c = none ∧ GetSymbolByCoin g c = "") ∧
    (∀ p : Pair, Sprintf_d p.ID ∉ g.pairConstraintMap.Keys →
      GetPairConstraint g p = none ∧ GetSymbolByPair g p = "") ∧
    (∀ s : String, (∀ e ∈ g.coinConstraintMap.entries, e.2.ExSymbol ≠ s) →
      GetCoinBySymbol g s = none) ∧
    (∀ s : String, (∀ e ∈ g.pairConstraintMap.entries, e.2.ExSymbol ≠ s) →
      GetPairBySymbol g s = none) := by
  refine ⟨?_, ?_, ?_, ?_⟩
  · intro c hc
    have hget := CMap.Get_eq_none_of_not_mem _ _ hc
    simp [GetCoinConstraint, GetSymbolByCoin, hget]
  · intro p hp
    have hget := CMap.Get_eq_none_of_not_mem _ _ hp
    simp [GetPairConstraint, GetSymbolByPair, hget]
  · intro s hs
    exact GetCoinBySymbol_loop_none _ s hs _
  · intro s hs
    exact GetPairBySymbol_loop_none _ s hs _

/-- C5 at a concrete input: the scenario store has no record for `eth`, none for
pair ID 11 and none with the symbol `"DOGE"`. -/
theorem C5_lookup_miss_is_empty_witness :
    Sprintf_d eth.ID ∉ scenarioStore.coinConstraintMap.Keys ∧
    (GetCoinConstraint scenarioStore eth = none ∧ GetSymbolByCoin scenarioStore eth = "") ∧
    (GetPairConstraint scenarioStore { btcEth with ID := 11 } = none ∧
      GetSymbolByPair scenarioStore { btcEth with ID := 11 } = "") ∧
    GetCoinBySymbol scenarioStore "DOGE" = none ∧
    GetPairBySymbol scenarioStore "DOGE" = none :=
  ⟨by decide,
   (C5_lookup_miss_is_empty scenarioStore).1 eth (by decide),
   (C5_lookup_miss_is_empty scenarioStore).2.1 { btcEth with ID := 11 } (by decide),
   (C5_lookup_miss_is_empty scenarioStore).2.2.1 "DOGE" (by decide),
   (C5_lookup_miss_is_empty scenarioStore).2.2.2 "DOGE" (by decide)⟩

/-! ## Deletion -/

/-- C6: after `DeleteCoin(c)`, `GetCoinConstraint(c)` is nil; deleting twice gives
the state of deleting once; and deleting a coin whose key the store does not hold
leaves the state as it was.  The same for `DeletePair` and `GetPairConstraint`.
Neither function contains an operation that can fault. -/
theorem C6_delete (g : Globals) (c : Coin) (p : Pair) :
    GetCoinConstraint (DeleteCoin g c) c = none ∧
    DeleteCoin (DeleteCoin g c) c = DeleteCoin g c ∧
    (Sprintf_d c.ID ∉ g.coinConstraintMap.Keys → DeleteCoin g c = g) ∧
    GetPairConstraint (DeletePair g p) p = none ∧
    DeletePair (DeletePair g p) p = DeletePair g p ∧
    (Sprintf_d p.ID ∉ g.pairConstraintMap.Keys → DeletePair g p = g) := by
  refine ⟨?_, ?_, ?_, ?_, ?_, ?_⟩
  · simp [GetCoinConstraint, DeleteCoin, CMap.Get_Remove_self]
  · simp [DeleteCoin, CMap.Remove_Remove]
  · intro h
    simp [DeleteCoin, CMap.Remove_of_not_mem _ _ h]
  · simp [GetPairConstraint, DeletePair, CMap.Get_Remove_self]
  · simp [DeletePair, CMap.Remove_Remove]
  · intro h
    simp [DeletePair, CMap.Remove_of_not_mem _ _ h]

/-- C6 at a concrete input: deleting `btc`, which the scenario store holds, removes
its record; deleting `eth`, which it does not hold, changes nothing. -/
theorem C6_delete_witness :
    GetCoinConstraint scenarioStore btc = some btcConstraint ∧
    GetCoinConstraint (DeleteCoin scenarioStore btc) btc = none ∧
    Sprintf_d eth.ID ∉ scenarioStore.coinConstraintMap.Keys ∧
    DeleteCoin scenarioStore eth = scenarioStore ∧
    DeletePair scenarioStore { btcEth with ID := 11 } = scenarioStore :=
  ⟨by decide, (C6_delete scenarioStore btc btcEth).1, by decide,
   (C6_delete scenarioStore eth btcEth).2.2.1 (by decide),
   (C6_delete scenarioStore eth { btcEth with ID := 11 }).2.2.2.2.2 (by decide)⟩

/-! ## Balances -/

/-- C7: `GetBalance(c)` is `0.0` when the balance map has no entry under `c.Code`,
and the stored amount when it has one.  The function contains no operation that
can fault. -/
theorem C7_balance (g : Globals) (c : Coin) :
    (c.Code ∉ g.balanceMap.Keys → GetBalance g c = Float64.zero) ∧
    (∀ amount : Float64, g.balanceMap.Keys.Nodup →
      (c.Code, amount) ∈ g.balanceMap.entries → GetBalance g c = amount) := by
  constructor
  · intro h
    simp [GetBalance, CMap.Get_eq_none_of_not_mem _ _ h]
  · intro amount hnd hmem
    simp [GetBalance, CMap.Get_of_mem _ _ _ hnd hmem]

/-- C7 at a concrete input: a balance map holding `0.001` under `"BTC"` and nothing
under `"ETH"`. -/
theorem C7_balance_witness :
    eth.Code ∉ fundedStore.balanceMap.Keys ∧
    GetBalance fundedStore eth = Float64.zero ∧
    (btc.Code, Float64.milli) ∈ fundedStore.balanceMap.entries ∧
    GetBalance fundedStore btc = Float64.milli :=
  ⟨by decide, (C7_balance fundedStore eth).1 (by decide), by decide,
   (C7_balance fundedStore btc).2 Float64.milli (by decide) (by decide)⟩

/-! ## Symbol translation -/

theorem GetCoinBySymbol_loop_found (m : CMap CoinConstraint) (R : CoinConstraint)
    (huniq : ∀ e ∈ m.entries, e.2.ExSymbol = R.ExSymbol → e.2 = R) (ks : List String)
    (hex : ∃ id ∈ ks, m.Get id = some R) :
    GetCoinBySymbol.loop m R.ExSymbol ks = R.Coin := by
  induction ks with
  | nil => simp at hex
  | cons id rest ih =>
    unfold GetCoinBySymbol.loop
    obtain ⟨id0, hid0, hget0⟩ := hex
    cases hget : m.Get id with
    | none =>
      have hrest : ∃ id1 ∈ rest, m.Get id1 = some R := by
        rcases List.mem_cons.mp hid0 with heq | hmem
        · subst heq
          rw [hget] at hget0
          cases hget0
        · exact ⟨id0, hmem, hget0⟩
      simpa using ih hrest
    | some cc =>
      by_cases hsym : cc.ExSymbol = R.ExSymbol
      · have hcc : cc = R := huniq (id, cc) (CMap.mem_of_Get m id cc hget) hsym
        simp [hcc]
      · have hrest : ∃ id1 ∈ rest, m.Get id1 = some R := by
          rcases List.mem_cons.mp hid0 with heq | hmem
          · subst heq
            rw [hget] at hget0
            cases hget0
            exact absurd rfl hsym
          · exact ⟨id0, hmem, hget0⟩
        simpa [hsym] using ih hrest

theorem GetPairBySymbol_loop_found (m : CMap PairConstraint) (R : PairConstraint)
    (huniq : ∀ e ∈ m.entries, e.2.ExSymbol = R.ExSymbol → e.2 = R) (ks : List String)
    (hex : ∃ id ∈ ks, m.Get id = some R) :
    GetPairBySymbol.loop m R.ExSymbol ks = R.Pair := by
  induction ks with
  | nil => simp at hex
  | cons id rest ih =>
    unfold GetPairBySymbol.loop
    obtain ⟨id0, hid0, hget0⟩ := hex
    cases hget : m.Get id with
    | none =>
      have hrest : ∃ id1 ∈ rest, m.Get id1 = some R := by
        rcases List.mem_cons.mp hid0 with heq | hmem
        · subst heq
          rw [hget] at hget0
          cases hget0
        · exact ⟨id0, hmem, hget0⟩
      simpa using ih hrest
    | some pc =>
      by_cases hsym : pc.ExSymbol = R.ExSymbol
      · have hpc : pc = R := huniq (id, pc) (CMap.mem_of_Get m id pc hget) hsym
        simp [hpc]
      · have hrest : ∃ id1 ∈ rest, m.Get id1 = some R := by
          rcases List.mem_cons.mp hid0 with heq | hmem
          · subst heq
            rw [hget] at hget0
            cases hget0
            exact absurd rfl hsym
          · exact ⟨id0, hmem, hget0⟩
        simpa [hsym] using ih hrest

/-- C8, as the claim states it, fails on the store of the spec's own scenario: the
record `CoinConstraint{CoinID: 1, ExSymbol: "BTC", Withdraw: true}` is held under
its own ID and no other record shares its symbol, `GetSymbolByCoin` gives
`"BTC"`, but `GetCoinBySymbol("BTC")` returns the record's `Coin` pointer, which
is nil, not a coin whose ID is 1; the same for the pair record and
`GetPairBySymbol("BTC-ETH")`. -/
theorem C8_symbol_lookup_returns_record_pointer :
    scenarioStore.coinConstraintMap.Get (Sprintf_d btcConstraint.CoinID) = some btcConstraint ∧
    (∀ e ∈ scenarioStore.coinConstraintMap.entries,
      e.2.ExSymbol = btcConstraint.ExSymbol → e.2 = btcConstraint) ∧
    GetSymbolByCoin scenarioStore btc = "BTC" ∧
    GetCoinBySymbol scenarioStore "BTC" = none ∧
    (¬ ∃ k : Coin, GetCoinBySymbol scenarioStore btcConstraint.ExSymbol = some k ∧
      k.ID = btcConstraint.CoinID) ∧
    scenarioStore.pairConstraintMap.Get (Sprintf_d btcEthConstraint.PairID) =
      some btcEthConstraint ∧
    GetSymbolByPair scenarioStore btcEth = "BTC-ETH" ∧
    GetPairBySymbol scenarioStore "BTC-ETH" = none := by
  refine ⟨by decide, by decide, by decide, by decide, ?_, by decide, by decide, by decide⟩
  rintro ⟨k, hk, _⟩
  have hnone : GetCoinBySymbol scenarioStore btcConstraint.ExSymbol = none := by decide
  rw [hnone] at hk
  cases hk

/-- C8, amended: for a coin record `R` held under its own ID whose `ExSymbol` no
other stored record shares, `GetSymbolByCoin(c) = R.ExSymbol` for the coin `c`
with `c.ID = R.CoinID`, and `GetCoinBySymbol(R.ExSymbol)` is the `Coin` pointer
stored in `R`; so `GetCoinBySymbol(GetSymbolByCoin(c))` has the ID `c.ID` when
that pointer is set to a coin whose ID is `R.CoinID`.  Likewise for pair records
with `GetSymbolByPair`, `GetPairBySymbol` and the `Pair` pointer. -/
theorem C8_symbol_translation (g : Globals) :
    (∀ (R : CoinConstraint) (c : Coin), g.coinConstraintMap.Keys.Nodup →
      (Sprintf_d R.CoinID, R) ∈ g.coinConstraintMap.entries →
      (∀ e ∈ g.coinConstraintMap.entries, e.2.ExSymbol = R.ExSymbol → e.2 = R) →
      c.ID = R.CoinID →
      GetSymbolByCoin g c = R.ExSymbol ∧ GetCoinBySymbol g R.ExSymbol = R.Coin ∧
      (∀ k : Coin, R.Coin = some k → k.ID = R.CoinID →
        ∃ k1 : Coin, GetCoinBySymbol g (GetSymbolByCoin g c) = some k1 ∧ k1.ID = c.ID)) ∧
    (∀ (R : PairConstraint) (p : Pair), g.pairConstraintMap.Keys.Nodup →
      (Sprintf_d R.PairID, R) ∈ g.pairConstraintMap.entries →
      (∀ e ∈ g.pairConstraintMap.entries, e.2.ExSymbol = R.ExSymbol → e.2 = R) →
      p.ID = R.PairID →
      GetSymbolByPair g p = R.ExSymbol ∧ GetPairBySymbol g R.ExSymbol = R.Pair ∧
      (∀ k : Pair, R.Pair = some k → k.ID = R.PairID →
        ∃ k1 : Pair, GetPairBySymbol g (GetSymbolByPair g p) = some k1 ∧ k1.ID = p.ID)) := by
  constructor
  · intro R c hnd hmem huniq hid
    have hget : g.coinConstraintMap.Get (Sprintf_d R.CoinID) = some R :=
      CMap.Get_of_mem _ _ _ hnd hmem
    have hkey : Sprintf_d R.CoinID ∈ g.coinConstraintMap.Keys :=
      List.mem_map_of_mem Prod.fst hmem
    have hsym : GetSymbolByCoin g c = R.ExSymbol := by
      simp [GetSymbolByCoin, hid, hget]
    have hcoin : GetCoinBySymbol g R.ExSymbol = R.Coin :=
      GetCoinBySymbol_loop_found _ R huniq _ ⟨_, hkey, hget⟩
    refine ⟨hsym, hcoin, ?_⟩
    intro k hk hkid
    exact ⟨k, by rw [hsym, hcoin, hk], by rw [hkid, hid]⟩
  · intro R p hnd hmem huniq hid
    have hget : g.pairConstraintMap.Get (Sprintf_d R.PairID) = some R :=
      CMap.Get_of_mem _ _ _ hnd hmem
    have hkey : Sprintf_d R.PairID ∈ g.pairConstraintMap.Keys :=
      List.mem_map_of_mem Prod.fst hmem
    have hsym : GetSymbolByPair g p = R.ExSymbol := by
      simp [GetSymbolByPair, GetPairConstraint, hid, hget]
    have hpair : GetPairBySymbol g R.ExSymbol = R.Pair :=
      GetPairBySymbol_loop_found _ R huniq _ ⟨_, hkey, hget⟩
    refine ⟨hsym, hpair, ?_⟩
    intro k hk hkid
    exact ⟨k, by rw [hsym, hpair, hk], by rw [hkid, hid]⟩

/-- C8, amended, at a concrete input: with the records of the scenario carrying
their `Coin` and `Pair` pointers, `"BTC"` translates back to a coin with ID 1. -/
theorem C8_symbol_translation_witness :
    linkedStore.coinConstraintMap.Keys.Nodup ∧
    (Sprintf_d 1, { btcConstraint with Coin := some btc }) ∈
      linkedStore.coinConstraintMap.entries ∧
    (GetSymbolByCoin linkedStore btc = "BTC" ∧
      GetCoinBySymbol linkedStore "BTC" = some btc ∧
      (∀ k : Coin, some btc = some k → k.ID = 1 →
        ∃ k1 : Coin, GetCoinBySymbol linkedStore (GetSymbolByCoin linkedStore btc) = some k1 ∧
          k1.ID = btc.ID)) :=
  ⟨by decide, by decide,
   (C8_symbol_translation linkedStore).1 { btcConstraint with Coin := some btc } btc
     (by decide) (by decide) (by decide) (by decide)⟩

/-! ## Derived accessors on a stored record -/

/-- C9: for a coin `c` whose record `R` is in the store, each derived accessor
returns the corresponding field of `R`: `GetTxFee(c) = R.TxFee`,
`CanWithdraw(c) = R.Withdraw`, `CanDeposit(c) = R.Deposit`,
`GetConfirmation(c) = R.Confirmation`; and for a pair `p` whose record `R` is in
the store, `GetFee(p) = R.TakerFee`, `GetLotSize(p) = R.LotSize`,
`GetPriceFilter(p) = R.PriceFilter`. -/
theorem C9_accessors_read_record (g : Globals) :
    (∀ (c : Coin) (R : CoinConstraint), g.coinConstraintMap.Keys.Nodup →
      (Sprintf_d c.ID, R) ∈ g.coinConstraintMap.entries →
      GetTxFee g c = .ok R.TxFee ∧ CanWithdraw g c = .ok R.Withdraw ∧
      CanDeposit g c = .ok R.Deposit ∧ GetConfirmation g c = .ok R.Confirmation) ∧
    (∀ (p : Pair) (R : PairConstraint), g.pairConstraintMap.Keys.Nodup →
      (Sprintf_d p.ID, R) ∈ g.pairConstraintMap.entries →
      GetFee g p = .ok R.TakerFee ∧ GetLotSize g p = .ok R.LotSize ∧
      GetPriceFilter g p = .ok R.PriceFilter) := by
  constructor
  · intro c R hnd hmem
    have hget : GetCoinConstraint g c = some R := by
      simp [GetCoinConstraint, CMap.Get_of_mem _ _ _ hnd hmem]
    simp only [GetTxFee, CanWithdraw, CanDeposit, GetConfirmation, hget, deref]
    exact ⟨rfl, rfl, rfl, rfl⟩
  · intro p R hnd hmem
    have hget : GetPairConstraint g p = some R := by
      simp [GetPairConstraint, CMap.Get_of_mem _ _ _ hnd hmem]
    simp only [GetFee, GetLotSize, GetPriceFilter, hget, deref]
    exact ⟨rfl, rfl, rfl⟩

/-- C9 at the spec's scenario: with `PairConstraint{PairID: 10, LotSize: 0.001}`
and `CoinConstraint{CoinID: 1, Withdraw: true}` stored, `GetLotSize(Pair{ID: 10})`
is `0.001` and `CanWithdraw(Coin{ID: 1})` is `true`. -/
theorem C9_accessors_read_record_witness :
    scenarioStore.coinConstraintMap.Keys.Nodup ∧
    (Sprintf_d btc.ID, btcConstraint) ∈ scenarioStore.coinConstraintMap.entries ∧
    (Sprintf_d btcEth.ID, btcEthConstraint) ∈ scenarioStore.pairConstraintMap.entries ∧
    CanWithdraw scenarioStore btc = .ok true ∧
    GetLotSize scenarioStore btcEth = .ok Float64.milli :=
  ⟨by decide, by decide, by decide,
   ((C9_accessors_read_record scenarioStore).1 btc btcConstraint (by decide) (by decide)).2.1,
   ((C9_accessors_read_record scenarioStore).2 btcEth btcEthConstraint
     (by decide) (by decide)).2.1⟩

/-! ## Initialisation without a local data source -/

/-- C10: when the `Source` is neither `EXCHANGE_API` nor `JSON_FILE`, `InitData`
returns normally with the coin, pair and balance maps (the whole package state)
exactly as they were, whatever the fetch methods and the snapshot loader would
do, so none of them takes part; and the first `CreateBittrex` with such a
`Source` returns the new instance with the three maps empty. -/
theorem C10_no_local_source (env : Env) (src : DataSource)
    (hapi : src ≠ DataSource.EXCHANGE_API) (hjson : src ≠ DataSource.JSON_FILE) :
    (∀ (e : Bittrex) (g : Globals), e.Source = src → InitData env e g = .ok g) ∧
    (∀ (cfg : Config) (g : Globals), cfg.Source = src → g.once = false →
      ∃ (e : Bittrex) (g1 : Globals),
        CreateBittrex env (some cfg) g = .ok (some e, g1) ∧
        e.Source = src ∧ g1.inst = some e ∧ g1.once = true ∧
        g1.coinConstraintMap = CMap.New ∧ g1.pairConstraintMap = CMap.New ∧
        g1.balanceMap = CMap.New) := by
  have hinit : ∀ (e : Bittrex) (g : Globals), e.Source = src → InitData env e g = .ok g := by
    intro e g he
    unfold InitData
    cases hs : e.Source with
    | EXCHANGE_API => exact absurd (he ▸ hs) hapi
    | JSON_FILE => exact absurd (he ▸ hs) hjson
    | MICROSERVICE_API => rfl
    | PSQL => rfl
    | unrecognised raw => rfl
  refine ⟨hinit, ?_⟩
  intro cfg g hcfg honce
  have hrun := hinit
    { ID := env.DEFAULT_ID, Name := "Bittrex", Website := "https://www.bittrex.com/",
      API_KEY := cfg.API_KEY, API_SECRET := cfg.API_SECRET,
      Source := cfg.Source, SourceURI := cfg.SourceURI }
    { g with
      inst := some
        { ID := env.DEFAULT_ID, Name := "Bittrex", Website := "https://www.bittrex.com/",
          API_KEY := cfg.API_KEY, API_SECRET := cfg.API_SECRET,
          Source := cfg.Source, SourceURI := cfg.SourceURI },
      balanceMap := CMap.New, coinConstraintMap := CMap.New, pairConstraintMap := CMap.New }
    hcfg
  refine ⟨{ ID := env.DEFAULT_ID, Name := "Bittrex", Website := "https://www.bittrex.com/",
            API_KEY := cfg.API_KEY, API_SECRET := cfg.API_SECRET,
            Source := cfg.Source, SourceURI := cfg.SourceURI },
          { pairConstraintMap := CMap.New, coinConstraintMap := CMap.New,
            balanceMap := CMap.New,
            inst := some
              { ID := env.DEFAULT_ID, Name := "Bittrex", Website := "https://www.bittrex.com/",
                API_KEY := cfg.API_KEY, API_SECRET := cfg.API_SECRET,
                Source := cfg.Source, SourceURI := cfg.SourceURI },
            once := true }, ?_, hcfg, rfl, rfl, rfl, rfl, rfl⟩
  simp only [honce] at hrun
  simp [CreateBittrex, honce, deref, bind, Except.bind, hrun]

/-- C10 at a concrete input: an adapter configured with the microservice strategy,
in an environment whose fetch methods would fault if called. -/
theorem C10_no_local_source_witness :
    DataSource.MICROSERVICE_API ≠ DataSource.EXCHANGE_API ∧
    DataSource.MICROSERVICE_API ≠ DataSource.JSON_FILE ∧
    InitData sampleEnv microserviceAdapter scenarioStore = .ok scenarioStore ∧
    (∃ (e : Bittrex) (g1 : Globals),
      CreateBittrex sampleEnv (some microserviceConfig) Globals.initial = .ok (some e, g1) ∧
      e.Source = DataSource.MICROSERVICE_API ∧ g1.inst = some e ∧ g1.once = true ∧
      g1.coinConstraintMap = CMap.New ∧ g1.pairConstraintMap = CMap.New ∧
      g1.balanceMap = CMap.New) :=
  ⟨by decide, by decide,
   (C10_no_local_source sampleEnv DataSource.MICROSERVICE_API (by decide) (by decide)).1
     microserviceAdapter scenarioStore rfl,
   (C10_no_local_source sampleEnv DataSource.MICROSERVICE_API (by decide) (by decide)).2
     microserviceConfig Globals.initial rfl rfl⟩

/-! ## Initialisation from a snapshot -/

/-- C11: with `Source = JSON_FILE` and a snapshot `D` returned by the loader,
`InitData` returns normally and the coin map is `D.CoinConstraint`, the pair map
`D.PairConstraint`, whatever the maps held before: every record of the new maps
is a record of `D`, and every record of `D` is read back under its key. -/
theorem C11_snapshot_replaces_stores (env : Env) (e : Bittrex) (g : Globals)
    (D : ExchangeData) (hsrc : e.Source = DataSource.JSON_FILE)
    (hload : env.GetExchangeDataFromJSON e.SourceURI GetName = some D) :
    ∃ g1 : Globals, InitData env e g = .ok g1 ∧
      g1.coinConstraintMap = D.CoinConstraint ∧ g1.pairConstraintMap = D.PairConstraint ∧
      (∀ x ∈ g1.coinConstraintMap.entries, x ∈ D.CoinConstraint.entries) ∧
      (∀ x ∈ g1.pairConstraintMap.entries, x ∈ D.PairConstraint.entries) ∧
      (D.CoinConstraint.Keys.Nodup → ∀ x ∈ D.CoinConstraint.entries,
        g1.coinConstraintMap.Get x.1 = some x.2) ∧
      (D.PairConstraint.Keys.Nodup → ∀ x ∈ D.PairConstraint.entries,
        g1.pairConstraintMap.Get x.1 = some x.2) := by
  refine ⟨{ g with coinConstraintMap := D.CoinConstraint,
                   pairConstraintMap := D.PairConstraint }, ?_, rfl, rfl, ?_, ?_, ?_, ?_⟩
  · simp only [InitData, hsrc, hload, deref]
    rfl
  · intro x hx
    exact hx
  · intro x hx
    exact hx
  · intro hnd x hx
    exact CMap.Get_of_mem _ x.1 x.2 hnd hx
  · intro hnd x hx
    exact CMap.Get_of_mem _ x.1 x.2 hnd hx

/-- C11 at a concrete input: loading `orphanSnapshot` over the scenario store with
its coin record deleted brings in the records of the snapshot, the one for coin 7
included, and the coin record is read back under the key `"1"`. -/
theorem C11_snapshot_replaces_stores_witness :
    snapshotAdapter.Source = DataSource.JSON_FILE ∧
    liveEnv.GetExchangeDataFromJSON snapshotAdapter.SourceURI GetName = some orphanSnapshot ∧
    GetCoinConstraint (DeleteCoin scenarioStore btc) btc = none ∧
    (∃ g1 : Globals, InitData liveEnv snapshotAdapter (DeleteCoin scenarioStore btc) = .ok g1 ∧
      g1.coinConstraintMap = orphanSnapshot.CoinConstraint ∧
      g1.pairConstraintMap = orphanSnapshot.PairConstraint ∧
      (∀ x ∈ g1.coinConstraintMap.entries, x ∈ orphanSnapshot.CoinConstraint.entries) ∧
      (∀ x ∈ g1.pairConstraintMap.entries, x ∈ orphanSnapshot.PairConstraint.entries) ∧
      (orphanSnapshot.CoinConstraint.Keys.Nodup → ∀ x ∈ orphanSnapshot.CoinConstraint.entries,
        g1.coinConstraintMap.Get x.1 = some x.2) ∧
      (orphanSnapshot.PairConstraint.Keys.Nodup → ∀ x ∈ orphanSnapshot.PairConstraint.entries,
        g1.pairConstraintMap.Get x.1 = some x.2)) :=
  ⟨rfl, rfl, by decide,
   C11_snapshot_replaces_stores liveEnv snapshotAdapter (DeleteCoin scenarioStore btc)
     orphanSnapshot rfl rfl⟩

/-! ## Singleton construction -/

theorem CreateBittrex_of_once (env : Env) (config : Option Config) (g : Globals)
    (h : g.once = true) : CreateBittrex env config g = .ok (g.inst, g) := by
  simp [CreateBittrex, h]

theorem CreateBittrex_result (env : Env) (config : Option Config) (g0 : Globals)
    (e : Option Bittrex) (g1 : Globals) (h : CreateBittrex env config g0 = .ok (e, g1)) :
    g1.once = true ∧ g1.inst = e := by
  unfold CreateBittrex at h
  by_cases honce : g0.once = true
  · simp only [honce, if_true, Except.ok.injEq, Prod.mk.injEq] at h
    obtain ⟨h1, h2⟩ := h
    subst h2
    exact ⟨honce, h1⟩
  · have hf : g0.once = false := by simpa using honce
    rw [hf] at h
    simp only [Bool.false_eq_true, if_false] at h
    cases config with
    | none => simp [deref, bind, Except.bind] at h
    | some cfg =>
      simp only [deref, bind, Except.bind] at h
      split at h
      · simp at h
      · simp only [Except.ok.injEq, Prod.mk.injEq] at h
        obtain ⟨h1, h2⟩ := h
        subst h2
        exact ⟨rfl, h1⟩

theorem StoreOp.apply_once_inst (g : Globals) (op : StoreOp) :
    (op.apply g).once = g.once ∧ (op.apply g).inst = g.inst := by
  cases op <;> exact ⟨rfl, rfl⟩

theorem runOps_once_inst (ops : List StoreOp) (g : Globals) :
    (runOps ops g).once = g.once ∧ (runOps ops g).inst = g.inst := by
  induction ops generalizing g with
  | nil => exact ⟨rfl, rfl⟩
  | cons op rest ih =>
    have h1 := ih (op.apply g)
    have h2 := StoreOp.apply_once_inst g op
    simp only [runOps, List.foldl_cons] at h1 ⊢
    exact ⟨h1.1.trans h2.1, h1.2.trans h2.2⟩

theorem createAll_of_once (env : Env) (configs : List (Option Config)) (g : Globals)
    (h : g.once = true) :
    createAll env configs g = .ok (configs.map (fun _ => g.inst), g) := by
  induction configs with
  | nil => rfl
  | cons config rest ih =>
    simp [createAll, CreateBittrex_of_once env config g h, ih, bind, Except.bind]

/-- C12: sequential singleton construction.  Once a call of `CreateBittrex` has
returned an instance `e`, every later call returns that same `e`, whatever its
config (nil included) and whatever `InitData` would do if it ran, and leaves the
package state, so the coin, pair and balance maps, exactly as it found it; this
holds for any run of later calls and also when store mutations come between. -/
theorem C12_singleton_sequential (env : Env) (config : Option Config) (g0 : Globals)
    (e : Option Bittrex) (g1 : Globals)
    (hfirst : CreateBittrex env config g0 = .ok (e, g1)) :
    g1.once = true ∧ g1.inst = e ∧
    (∀ (env1 : Env) (configs : List (Option Config)),
      createAll env1 configs g1 = .ok (configs.map (fun _ => e), g1)) ∧
    (∀ (env1 : Env) (config1 : Option Config) (ops : List StoreOp),
      CreateBittrex env1 config1 (runOps ops g1) = .ok (e, runOps ops g1)) := by
  obtain ⟨honce, hinst⟩ := CreateBittrex_result env config g0 e g1 hfirst
  refine ⟨honce, hinst, ?_, ?_⟩
  · intro env1 configs
    rw [createAll_of_once env1 configs g1 honce, hinst]
  · intro env1 config1 ops
    have hrun := runOps_once_inst ops g1
    rw [CreateBittrex_of_once env1 config1 (runOps ops g1) (hrun.1.trans honce), hrun.2, hinst]

/-- C12 at a concrete input: the first call, with the microservice config on the
initial state, builds the instance; three later calls, with a nil config, the
snapshot config and the microservice config in an environment whose snapshot
loader and fetch would change the maps, return it again and change nothing. -/
theorem C12_singleton_sequential_witness :
    CreateBittrex sampleEnv (some microserviceConfig) Globals.initial =
      .ok (some microserviceAdapter,
           { Globals.initial with inst := some microserviceAdapter, once := true }) ∧
    createAll liveEnv [none, some snapshotConfig, some microserviceConfig]
        { Globals.initial with inst := some microserviceAdapter, once := true } =
      .ok ([some microserviceAdapter, some microserviceAdapter, some microserviceAdapter],
           { Globals.initial with inst := some microserviceAdapter, once := true }) :=
  ⟨rfl,
   (C12_singleton_sequential sampleEnv (some microserviceConfig) Globals.initial
      (some microserviceAdapter)
      { Globals.initial with inst := some microserviceAdapter, once := true } rfl).2.2.1
      liveEnv [none, some snapshotConfig, some microserviceConfig]⟩

/-! ## Refresh -/

/-- C13, as the claim states it, fails: for an adapter configured with the
microservice strategy `InitData` fetches nothing but `UpdateConstraint` runs the
live fetch and the maps change; for one configured with the snapshot-file
strategy `InitData` loads the snapshot but `UpdateConstraint` again runs the live
fetch and the snapshot's record for coin 7 is not brought in. -/
theorem C13_update_ignores_source :
    InitData liveEnv microserviceAdapter Globals.initial = .ok Globals.initial ∧
    UpdateConstraint liveEnv microserviceAdapter Globals.initial = .ok scenarioStore ∧
    scenarioStore ≠ Globals.initial ∧
    InitData liveEnv snapshotAdapter Globals.initial =
      .ok { Globals.initial with coinConstraintMap := orphanSnapshot.CoinConstraint,
                                 pairConstraintMap := orphanSnapshot.PairConstraint } ∧
    UpdateConstraint liveEnv snapshotAdapter Globals.initial = .ok scenarioStore ∧
    orphanSnapshot.CoinConstraint.Get "7" = some orphanCoinConstraint ∧
    scenarioStore.coinConstraintMap.Get "7" = none :=
  ⟨rfl, rfl, by decide, rfl, rfl, by decide, by decide⟩

/-- C13, amended: `UpdateConstraint` refreshes through the live fetch,
`GetCoinsData` followed by `GetPairsData`, whatever strategy the adapter was
configured with: its result is that of the two fetch methods, the snapshot loader
playing no part, and it is what `InitData` does exactly for an adapter configured
with the live-api strategy. -/
theorem C13_update_is_live_fetch (env : Env) (e : Bittrex) (g : Globals) :
    UpdateConstraint env e g = (env.GetCoinsData e g).bind (env.GetPairsData e) ∧
    (∀ env1 : Env, env1.GetCoinsData = env.GetCoinsData →
      env1.GetPairsData = env.GetPairsData →
      UpdateConstraint env1 e g = UpdateConstraint env e g) ∧
    (e.Source = DataSource.EXCHANGE_API → UpdateConstraint env e g = InitData env e g) := by
  refine ⟨rfl, ?_, ?_⟩
  · intro env1 h1 h2
    simp [UpdateConstraint, h1, h2]
  · intro hsrc
    simp [UpdateConstraint, InitData, hsrc]

/-- C13, amended, at a concrete input: for the adapter configured with the
live-api strategy, refresh and initialisation agree and write the two fetched
records. -/
theorem C13_update_is_live_fetch_witness :
    liveAdapter.Source = DataSource.EXCHANGE_API ∧
    InitData liveEnv liveAdapter Globals.initial = .ok scenarioStore ∧
    UpdateConstraint liveEnv liveAdapter Globals.initial =
      InitData liveEnv liveAdapter Globals.initial :=
  ⟨rfl, rfl, (C13_update_is_live_fetch liveEnv liveAdapter Globals.initial).2.2 rfl⟩

/-! ## Symbols -/

theorem length_le_one_of_same_key {V : Type} (l : List (String × V))
    (hnd : (l.map Prod.fst).Nodup) (hsame : ∀ x ∈ l, ∀ y ∈ l, x.1 = y.1) : l.length ≤ 1 := by
  cases l with
  | nil => simp
  | cons a t =>
    cases t with
    | nil => simp
    | cons b t1 =>
      exfalso
      simp only [List.map_cons, List.nodup_cons, List.mem_cons, not_or] at hnd
      exact hnd.1.1 (hsame a (List.mem_cons_self _ _) b
        (List.mem_cons_of_mem _ (List.mem_cons_self _ _)))

theorem matches_le_one {V : Type} (sym : V → String) (l : List (String × V))
    (hnd : (l.map Prod.fst).Nodup)
    (huniq : ∀ x ∈ l, ∀ y ∈ l, sym x.2 = sym y.2 → x.1 = y.1) (s : String) :
    (l.filter (fun e => sym e.2 == s)).length ≤ 1 := by
  apply length_le_one_of_same_key
  · exact List.Nodup.sublist (List.Sublist.map Prod.fst (List.filter_sublist l)) hnd
  · intro x hx y hy
    obtain ⟨hxl, hxs⟩ := List.mem_filter.mp hx
    obtain ⟨hyl, hys⟩ := List.mem_filter.mp hy
    have h1 : sym x.2 = s := by simpa using hxs
    have h2 : sym y.2 = s := by simpa using hys
    exact huniq x hxl y hyl (h1.trans h2.symm)

theorem symbols_unique_upsert {V : Type} (sym : V → String) (k : String) (v : V)
    (l : List (String × V))
    (huniq : ∀ x ∈ l, ∀ y ∈ l, sym x.2 = sym y.2 → x.1 = y.1)
    (hfresh : ∀ x ∈ l, sym x.2 = sym v → x.1 = k) :
    ∀ x ∈ CMap.upsert k v l, ∀ y ∈ CMap.upsert k v l, sym x.2 = sym y.2 → x.1 = y.1 := by
  intro x hx y hy hs
  rcases CMap.mem_upsert k v l x hx with hx1 | hx1
  · rcases CMap.mem_upsert k v l y hy with hy1 | hy1
    · rw [hx1, hy1]
    · rw [hx1] at hs ⊢
      exact (hfresh y hy1 hs.symm).symm
  · rcases CMap.mem_upsert k v l y hy with hy1 | hy1
    · rw [hy1] at hs ⊢
      exact hfresh x hx1 hs
    · exact huniq x hx1 y hy1 hs

/-- The invariant behind symbol uniqueness: keys are not repeated and symbols are
not shared across keys, in both constraint maps. -/
theorem symbols_invariant_step (g : Globals) (op : StoreOp)
    (hinv : g.coinConstraintMap.Keys.Nodup ∧ CoinSymbolsUnique g ∧
      g.pairConstraintMap.Keys.Nodup ∧ PairSymbolsUnique g)
    (hfresh : op.symbolFresh g) :
    (op.apply g).coinConstraintMap.Keys.Nodup ∧ CoinSymbolsUnique (op.apply g) ∧
      (op.apply g).pairConstraintMap.Keys.Nodup ∧ PairSymbolsUnique (op.apply g) := by
  obtain ⟨hcn, hcu, hpn, hpu⟩ := hinv
  cases op with
  | setCoin R =>
    refine ⟨CMap.Nodup_Keys_Set _ _ _ hcn, ?_, hpn, hpu⟩
    exact symbols_unique_upsert (fun R : CoinConstraint => R.ExSymbol) _ R _ hcu hfresh
  | deleteCoin c =>
    refine ⟨CMap.Nodup_Keys_Remove _ _ hcn, ?_, hpn, hpu⟩
    intro x hx y hy hs
    exact hcu x (CMap.mem_entries_Remove _ _ x hx) y (CMap.mem_entries_Remove _ _ y hy) hs
  | setPair R =>
    refine ⟨hcn, hcu, CMap.Nodup_Keys_Set _ _ _ hpn, ?_⟩
    exact symbols_unique_upsert (fun R : PairConstraint => R.ExSymbol) _ R _ hpu hfresh
  | deletePair p =>
    refine ⟨hcn, hcu, CMap.Nodup_Keys_Remove _ _ hpn, ?_⟩
    intro x hx y hy hs
    exact hpu x (CMap.mem_entries_Remove _ _ x hx) y (CMap.mem_entries_Remove _ _ y hy) hs

theorem symbols_invariant_run (ops : List StoreOp) : ∀ (g : Globals),
    (g.coinConstraintMap.Keys.Nodup ∧ CoinSymbolsUnique g ∧
      g.pairConstraintMap.Keys.Nodup ∧ PairSymbolsUnique g) →
    symbolsKeptFresh ops g →
    (runOps ops g).coinConstraintMap.Keys.Nodup ∧ CoinSymbolsUnique (runOps ops g) ∧
      (runOps ops g).pairConstraintMap.Keys.Nodup ∧ PairSymbolsUnique (runOps ops g) := by
  induction ops with
  | nil => intro g hinv _; exact hinv
  | cons op rest ih =>
    intro g hinv hfresh
    exact ih (op.apply g) (symbols_invariant_step g op hinv hfresh.1) hfresh.2

/-- C15, as the claim states it, fails: after setting a record with the symbol
`"BTC"` under coin ID 1 and another under coin ID 2 (and two pair records with
the symbol `"BTC-ETH"` under pair IDs 10 and 11), two records held under
different IDs have the same `ExSymbol`, and `GetCoinBySymbol("BTC")` has two
matching records. -/
theorem C15_symbols_can_clash :
    (runOps clashOps Globals.initial).coinConstraintMap.Keys = ["1", "2"] ∧
    ¬ CoinSymbolsUnique (runOps clashOps Globals.initial) ∧
    coinSymbolMatches (runOps clashOps Globals.initial) "BTC" = 2 ∧
    (runOps clashOps Globals.initial).pairConstraintMap.Keys = ["10", "11"] ∧
    ¬ PairSymbolsUnique (runOps clashOps Globals.initial) ∧
    pairSymbolMatches (runOps clashOps Globals.initial) "BTC-ETH" = 2 := by
  decide

/-- C15, amended: the store keeps symbol uniqueness but does not enforce it.  In
every state reached from empty maps by a sequence of calls in which each
`SetCoinConstraint(R)` (resp. `SetPairConstraint(R)`) is made when no record
held under another ID has `R.ExSymbol`, no two records held under different IDs
have the same `ExSymbol`, so `GetCoinBySymbol` (resp. `GetPairBySymbol`) has at
most one matching record. -/
theorem C15_symbols_unique_when_kept_fresh (ops : List StoreOp) (g0 : Globals)
    (hcoin : g0.coinConstraintMap = CMap.New) (hpair : g0.pairConstraintMap = CMap.New)
    (hfresh : symbolsKeptFresh ops g0) :
    CoinSymbolsUnique (runOps ops g0) ∧
    (∀ symbol : String, coinSymbolMatches (runOps ops g0) symbol ≤ 1) ∧
    PairSymbolsUnique (runOps ops g0) ∧
    (∀ symbol : String, pairSymbolMatches (runOps ops g0) symbol ≤ 1) := by
  have hinit : g0.coinConstraintMap.Keys.Nodup ∧ CoinSymbolsUnique g0 ∧
      g0.pairConstraintMap.Keys.Nodup ∧ PairSymbolsUnique g0 := by
    refine ⟨?_, ?_, ?_, ?_⟩
    · simp [hcoin, CMap.Keys, CMap.New]
    · intro x hx
      simp [hcoin, CMap.New] at hx
    · simp [hpair, CMap.Keys, CMap.New]
    · intro x hx
      simp [hpair, CMap.New] at hx
  obtain ⟨hcn, hcu, hpn, hpu⟩ := symbols_invariant_run ops g0 hinit hfresh
  refine ⟨hcu, ?_, hpu, ?_⟩
  · intro symbol
    exact matches_le_one (fun R : CoinConstraint => R.ExSymbol) _ hcn hcu symbol
  · intro symbol
    exact matches_le_one (fun R : PairConstraint => R.ExSymbol) _ hpn hpu symbol

/-- C15, amended, at a concrete input: the calls of `mixedOps`, where coin 5 is
set twice with different symbols and no symbol is given to two IDs. -/
theorem C15_symbols_unique_when_kept_fresh_witness :
    symbolsKeptFresh mixedOps Globals.initial ∧
    CoinSymbolsUnique (runOps mixedOps Globals.initial) ∧
    coinSymbolMatches (runOps mixedOps Globals.initial) "FIVE" = 1 ∧
    coinSymbolMatches (runOps mixedOps Globals.initial) "FIVE" ≤ 1 :=
  ⟨by decide,
   (C15_symbols_unique_when_kept_fresh mixedOps Globals.initial rfl rfl (by decide)).1,
   by decide,
   (C15_symbols_unique_when_kept_fresh mixedOps Globals.initial rfl rfl (by decide)).2.1 "FIVE"⟩

/-! ## Frame of the mutators -/

theorem Sprintf_d_ne (a b : Int) (h : a ≠ b) : Sprintf_d a ≠ Sprintf_d b :=
  fun e => h (Sprintf_d_inj a b e)

/-- C16: `SetCoinConstraint(R)` and `DeleteCoin(d)` change at most the entry of the
coin map under `R.CoinID` (resp. `d.ID`): `GetCoinConstraint` for every other coin
ID returns what it returned before, the pair map and the balance map are the
same, and so are the results of `GetPairConstraint`, `HasPair`, `GetPairs` and
`GetBalance`.  Symmetrically `SetPairConstraint(R)` and `DeletePair(d)` change
at most the entry of the pair map under `R.PairID` (resp. `d.ID`) and leave the
coin map, the balance map, `GetCoinConstraint`, `GetCoins` and `GetBalance` as
they were. -/
theorem C16_mutator_frame (env : Env) (g : Globals) :
    (∀ (R : CoinConstraint) (c : Coin), c.ID ≠ R.CoinID →
      GetCoinConstraint (SetCoinConstraint g R) c = GetCoinConstraint g c) ∧
    (∀ (d c : Coin), c.ID ≠ d.ID →
      GetCoinConstraint (DeleteCoin g d) c = GetCoinConstraint g c) ∧
    (∀ (R : CoinConstraint) (p : Pair) (c : Coin),
      (SetCoinConstraint g R).pairConstraintMap = g.pairConstraintMap ∧
      (SetCoinConstraint g R).balanceMap = g.balanceMap ∧
      GetPairConstraint (SetCoinConstraint g R) p = GetPairConstraint g p ∧
      HasPair (SetCoinConstraint g R) p = HasPair g p ∧
      GetPairs env (SetCoinConstraint g R) = GetPairs env g ∧
      GetBalance (SetCoinConstraint g R) c = GetBalance g c) ∧
    (∀ (d : Coin) (p : Pair) (c : Coin),
      (DeleteCoin g d).pairConstraintMap = g.pairConstraintMap ∧
      (DeleteCoin g d).balanceMap = g.balanceMap ∧
      GetPairConstraint (DeleteCoin g d) p = GetPairConstraint g p ∧
      HasPair (DeleteCoin g d) p = HasPair g p ∧
      GetPairs env (DeleteCoin g d) = GetPairs env g ∧
      GetBalance (DeleteCoin g d) c = GetBalance g c) ∧
    (∀ (R : PairConstraint) (p : Pair), p.ID ≠ R.PairID →
      GetPairConstraint (SetPairConstraint g R) p = GetPairConstraint g p ∧
      HasPair (SetPairConstraint g R) p = HasPair g p) ∧
    (∀ (d p : Pair), p.ID ≠ d.ID →
      GetPairConstraint (DeletePair g d) p = GetPairConstraint g p ∧
      HasPair (DeletePair g d) p = HasPair g p) ∧
    (∀ (R : PairConstraint) (c : Coin),
      (SetPairConstraint g R).coinConstraintMap = g.coinConstraintMap ∧
      (SetPairConstraint g R).balanceMap = g.balanceMap ∧
      GetCoinConstraint (SetPairConstraint g R) c = GetCoinConstraint g c ∧
      GetCoins env (SetPairConstraint g R) = GetCoins env g ∧
      GetBalance (SetPairConstraint g R) c = GetBalance g c) ∧
    (∀ (d : Pair) (c : Coin),
      (DeletePair g d).coinConstraintMap = g.coinConstraintMap ∧
      (DeletePair g d).balanceMap = g.balanceMap ∧
      GetCoinConstraint (DeletePair g d) c = GetCoinConstraint g c ∧
      GetCoins env (DeletePair g d) = GetCoins env g ∧
      GetBalance (DeletePair g d) c = GetBalance g c) := by
  refine ⟨?_, ?_, ?_, ?_, ?_, ?_, ?_, ?_⟩
  · intro R c h
    simp only [GetCoinConstraint, SetCoinConstraint]
    rw [CMap.Get_Set_ne _ _ _ _ (Sprintf_d_ne _ _ h)]
  · intro d c h
    simp only [GetCoinConstraint, DeleteCoin]
    rw [CMap.Get_Remove_ne _ _ _ (Sprintf_d_ne _ _ h)]
  · intro R p c
    exact ⟨rfl, rfl, rfl, rfl, rfl, rfl⟩
  · intro d p c
    exact ⟨rfl, rfl, rfl, rfl, rfl, rfl⟩
  · intro R p h
    simp only [GetPairConstraint, HasPair, CMap.Has, SetPairConstraint]
    rw [CMap.Get_Set_ne _ _ _ _ (Sprintf_d_ne _ _ h)]
    exact ⟨rfl, rfl⟩
  · intro d p h
    simp only [GetPairConstraint, HasPair, CMap.Has, DeletePair]
    rw [CMap.Get_Remove_ne _ _ _ (Sprintf_d_ne _ _ h)]
    exact ⟨rfl, rfl⟩
  · intro R c
    exact ⟨rfl, rfl, rfl, rfl, rfl⟩
  · intro d c
    exact ⟨rfl, rfl, rfl, rfl, rfl⟩

/-- C16 at a concrete input: on the store holding coins 1 and 7, writing a new
record for coin 7, or deleting coin 7, leaves what is read for coin 1 as it
was. -/
theorem C16_mutator_frame_witness :
    btc.ID ≠ orphanCoinConstraint.CoinID ∧
    GetCoinConstraint orphanStore btc = some btcConstraint ∧
    GetCoinConstraint (SetCoinConstraint orphanStore { orphanCoinConstraint with Deposit := true })
      btc = GetCoinConstraint orphanStore btc ∧
    GetCoinConstraint (DeleteCoin orphanStore { btc with ID := 7 }) btc =
      GetCoinConstraint orphanStore btc :=
  ⟨by decide, by decide,
   (C16_mutator_frame sampleEnv orphanStore).1 { orphanCoinConstraint with Deposit := true } btc
     (by decide),
   (C16_mutator_frame sampleEnv orphanStore).2.1 { btc with ID := 7 } btc (by decide)⟩

/-! ## Keys and records -/

theorem keys_consistent_step (g : Globals) (op : StoreOp)
    (hinv : (∀ x ∈ g.coinConstraintMap.entries, x.1 = Sprintf_d x.2.CoinID) ∧
      (∀ x ∈ g.pairConstraintMap.entries, x.1 = Sprintf_d x.2.PairID)) :
    (∀ x ∈ (op.apply g).coinConstraintMap.entries, x.1 = Sprintf_d x.2.CoinID) ∧
      (∀ x ∈ (op.apply g).pairConstraintMap.entries, x.1 = Sprintf_d x.2.PairID) := by
  obtain ⟨hc, hp⟩ := hinv
  cases op with
  | setCoin R =>
    refine ⟨?_, hp⟩
    intro x hx
    rcases CMap.mem_entries_Set _ _ _ x hx with h | h
    · rw [h]
    · exact hc x h
  | deleteCoin c =>
    exact ⟨fun x hx => hc x (CMap.mem_entries_Remove _ _ x hx), hp⟩
  | setPair R =>
    refine ⟨hc, ?_⟩
    intro x hx
    rcases CMap.mem_entries_Set _ _ _ x hx with h | h
    · rw [h]
    · exact hp x h
  | deletePair p =>
    exact ⟨hc, fun x hx => hp x (CMap.mem_entries_Remove _ _ x hx)⟩

theorem keys_consistent_run (ops : List StoreOp) : ∀ (g : Globals),
    ((∀ x ∈ g.coinConstraintMap.entries, x.1 = Sprintf_d x.2.CoinID) ∧
      (∀ x ∈ g.pairConstraintMap.entries, x.1 = Sprintf_d x.2.PairID)) →
    (∀ x ∈ (runOps ops g).coinConstraintMap.entries, x.1 = Sprintf_d x.2.CoinID) ∧
      (∀ x ∈ (runOps ops g).pairConstraintMap.entries, x.1 = Sprintf_d x.2.PairID) := by
  induction ops with
  | nil => intro g hinv; exact hinv
  | cons op rest ih =>
    intro g hinv
    exact ih (op.apply g) (keys_consistent_step g op hinv)

/-- C17: in every state reached from empty maps by a sequence of
`SetCoinConstraint`, `SetPairConstraint`, `DeleteCoin` and `DeletePair` calls,
every record of the coin map is held under the decimal rendering of its own
`CoinID` and every record of the pair map under that of its own `PairID`; hence
a record `R` returned by `GetCoinConstraint(c)` has `R.CoinID = c.ID`, and one
returned by `GetPairConstraint(p)` has `R.PairID = p.ID`. -/
theorem C17_key_record_consistency (ops : List StoreOp) (g0 : Globals)
    (hcoin : g0.coinConstraintMap = CMap.New) (hpair : g0.pairConstraintMap = CMap.New) :
    (∀ x ∈ (runOps ops g0).coinConstraintMap.entries, x.1 = Sprintf_d x.2.CoinID) ∧
    (∀ x ∈ (runOps ops g0).pairConstraintMap.entries, x.1 = Sprintf_d x.2.PairID) ∧
    (∀ (c : Coin) (R : CoinConstraint),
      GetCoinConstraint (runOps ops g0) c = some R → R.CoinID = c.ID) ∧
    (∀ (p : Pair) (R : PairConstraint),
      GetPairConstraint (runOps ops g0) p = some R → R.PairID = p.ID) := by
  have hinit : (∀ x ∈ g0.coinConstraintMap.entries, x.1 = Sprintf_d x.2.CoinID) ∧
      (∀ x ∈ g0.pairConstraintMap.entries, x.1 = Sprintf_d x.2.PairID) := by
    constructor
    · intro x hx
      simp [hcoin, CMap.New] at hx
    · intro x hx
      simp [hpair, CMap.New] at hx
  obtain ⟨hc, hp⟩ := keys_consistent_run ops g0 hinit
  refine ⟨hc, hp, ?_, ?_⟩
  · intro c R hget
    have hget1 : (runOps ops g0).coinConstraintMap.Get (Sprintf_d c.ID) = some R := by
      unfold GetCoinConstraint at hget
      split at hget
      · next tmp heq => rw [heq, hget]
      · cases hget
    have hmem := CMap.mem_of_Get _ _ _ hget1
    exact (Sprintf_d_inj _ _ (hc _ hmem)).symm
  · intro p R hget
    have hget1 : (runOps ops g0).pairConstraintMap.Get (Sprintf_d p.ID) = some R := by
      unfold GetPairConstraint at hget
      split at hget
      · next tmp heq => rw [heq, hget]
      · cases hget
    have hmem := CMap.mem_of_Get _ _ _ hget1
    exact (Sprintf_d_inj _ _ (hp _ hmem)).symm

/-- C17 at a concrete input: after the calls of `mixedOps`, the record read for
coin 5 is the one last written under ID 5. -/
theorem C17_key_record_consistency_witness :
    Globals.initial.coinConstraintMap = CMap.New ∧
    GetCoinConstraint (runOps mixedOps Globals.initial) { btc with ID := 5 } =
      some { btcConstraint with CoinID := 5, ExSymbol := "FIVE" } ∧
    ({ btcConstraint with CoinID := 5, ExSymbol := "FIVE" } : CoinConstraint).CoinID =
      ({ btc with ID := 5 } : Coin).ID :=
  ⟨rfl, by decide,
   (C17_key_record_consistency mixedOps Globals.initial rfl rfl).2.2.1 { btc with ID := 5 }
     { btcConstraint with CoinID := 5, ExSymbol := "FIVE" } (by decide)⟩

/-! ## Exact listing -/

theorem KeysWellFormed_Set {V : Type} (m : CMap V) (n : Int) (v : V) (hn : isInt n)
    (h : KeysWellFormed m.Keys) : KeysWellFormed (m.Set (Sprintf_d n) v).Keys := by
  refine ⟨CMap.Nodup_Keys_Set m _ v h.1, ?_⟩
  intro key hkey
  rcases (CMap.mem_Keys_Set m _ key v).mp hkey with h1 | h1
  · exact ⟨n, hn, h1⟩
  · exact h.2 key h1

theorem KeysWellFormed_Remove {V : Type} (m : CMap V) (k : String)
    (h : KeysWellFormed m.Keys) : KeysWellFormed (m.Remove k).Keys := by
  refine ⟨CMap.Nodup_Keys_Remove m k h.1, ?_⟩
  intro key hkey
  exact h.2 key ((CMap.mem_Keys_Remove m k key).mp hkey).2

theorem coin_keys_run (ops : List StoreOp) : ∀ (g : Globals),
    (∀ op ∈ ops, op.inRange) → KeysWellFormed g.coinConstraintMap.Keys →
    KeysWellFormed (runOps ops g).coinConstraintMap.Keys := by
  induction ops with
  | nil => intro g _ h; exact h
  | cons op rest ih =>
    intro g hr h
    have hop : op.inRange := hr op (List.mem_cons_self _ _)
    have hrest : ∀ o ∈ rest, o.inRange := fun o ho => hr o (List.mem_cons_of_mem _ ho)
    apply ih (op.apply g) hrest
    cases op with
    | setCoin R => exact KeysWellFormed_Set g.coinConstraintMap R.CoinID R hop h
    | deleteCoin c => exact KeysWellFormed_Remove g.coinConstraintMap _ h
    | setPair R => exact h
    | deletePair p => exact h

theorem pair_keys_run (ops : List StoreOp) : ∀ (g : Globals),
    (∀ op ∈ ops, op.inRange) → KeysWellFormed g.pairConstraintMap.Keys →
    KeysWellFormed (runOps ops g).pairConstraintMap.Keys := by
  induction ops with
  | nil => intro g _ h; exact h
  | cons op rest ih =>
    intro g hr h
    have hop : op.inRange := hr op (List.mem_cons_self _ _)
    have hrest : ∀ o ∈ rest, o.inRange := fun o ho => hr o (List.mem_cons_of_mem _ ho)
    apply ih (op.apply g) hrest
    cases op with
    | setCoin R => exact h
    | deleteCoin c => exact h
    | setPair R => exact KeysWellFormed_Set g.pairConstraintMap R.PairID R hop h
    | deletePair p => exact KeysWellFormed_Remove g.pairConstraintMap _ h

theorem Atoi_of_key (key : String) (h : ∃ n : Int, isInt n ∧ key = Sprintf_d n) :
    Sprintf_d (Atoi key) = key ∧ isInt (Atoi key) := by
  obtain ⟨n, hn, hkey⟩ := h
  rw [hkey, Atoi_Sprintf_d n hn.1 hn.2]
  exact ⟨rfl, hn⟩

theorem parsed_keys_nodup (keys : List String) (h : KeysWellFormed keys) :
    (keys.map Atoi).Nodup := by
  apply List.Nodup.map_on _ h.1
  intro x hx y hy hxy
  rw [← (Atoi_of_key x (h.2 x hx)).1, hxy, (Atoi_of_key y (h.2 y hy)).1]

theorem mem_sorted_keys (keys : List String) (h : KeysWellFormed keys) (id : Int) :
    id ∈ sortInts (keys.map Atoi) ↔ Sprintf_d id ∈ keys := by
  rw [(sortInts_perm _).mem_iff, List.mem_map]
  constructor
  · rintro ⟨key, hkey, hid⟩
    rw [← hid, (Atoi_of_key key (h.2 key hkey)).1]
    exact hkey
  · intro hmem
    refine ⟨Sprintf_d id, hmem, ?_⟩
    obtain ⟨n, hn, hkey⟩ := h.2 _ hmem
    rw [hkey, Atoi_Sprintf_d n hn.1 hn.2]
    exact (Sprintf_d_inj _ _ hkey).symm

theorem sorted_keys_strict (keys : List String) (h : KeysWellFormed keys) :
    (sortInts (keys.map Atoi)).Sorted (fun a b => a < b) :=
  (sortInts_sorted _).lt_of_le ((sortInts_perm _).nodup_iff.mpr (parsed_keys_nodup keys h))

theorem CoinSetAndNotDeleted_cons (op : StoreOp) (rest : List StoreOp) (id : Int) :
    CoinSetAndNotDeleted (op :: rest) id ↔
      (∃ R : CoinConstraint, op = StoreOp.setCoin R ∧ R.CoinID = id ∧
        ∀ c : Coin, StoreOp.deleteCoin c ∈ rest → c.ID ≠ id) ∨
      CoinSetAndNotDeleted rest id := by
  constructor
  · rintro ⟨before, R, after, heq, hid, hdel⟩
    cases before with
    | nil =>
      simp only [List.nil_append, List.cons.injEq] at heq
      obtain ⟨h1, h2⟩ := heq
      subst h2
      exact Or.inl ⟨R, h1, hid, hdel⟩
    | cons b bs =>
      simp only [List.cons_append, List.cons.injEq] at heq
      exact Or.inr ⟨bs, R, after, heq.2, hid, hdel⟩
  · rintro (⟨R, hop, hid, hdel⟩ | ⟨before, R, after, heq, hid, hdel⟩)
    · exact ⟨[], R, rest, by rw [hop]; rfl, hid, hdel⟩
    · exact ⟨op :: before, R, after, by rw [heq]; rfl, hid, hdel⟩

theorem PairSetAndNotDeleted_cons (op : StoreOp) (rest : List StoreOp) (id : Int) :
    PairSetAndNotDeleted (op :: rest) id ↔
      (∃ R : PairConstraint, op = StoreOp.setPair R ∧ R.PairID = id ∧
        ∀ p : Pair, StoreOp.deletePair p ∈ rest → p.ID ≠ id) ∨
      PairSetAndNotDeleted rest id := by
  constructor
  · rintro ⟨before, R, after, heq, hid, hdel⟩
    cases before with
    | nil =>
      simp only [List.nil_append, List.cons.injEq] at heq
      obtain ⟨h1, h2⟩ := heq
      subst h2
      exact Or.inl ⟨R, h1, hid, hdel⟩
    | cons b bs =>
      simp only [List.cons_append, List.cons.injEq] at heq
      exact Or.inr ⟨bs, R, after, heq.2, hid, hdel⟩
  · rintro (⟨R, hop, hid, hdel⟩ | ⟨before, R, after, heq, hid, hdel⟩)
    · exact ⟨[], R, rest, by rw [hop]; rfl, hid, hdel⟩
    · exact ⟨op :: before, R, after, by rw [heq]; rfl, hid, hdel⟩

theorem coin_key_history (ops : List StoreOp) : ∀ (g : Globals) (id : Int),
    Sprintf_d id ∈ (runOps ops g).coinConstraintMap.Keys ↔
      CoinSetAndNotDeleted ops id ∨
      (Sprintf_d id ∈ g.coinConstraintMap.Keys ∧
        ∀ c : Coin, StoreOp.deleteCoin c ∈ ops → c.ID ≠ id) := by
  induction ops with
  | nil =>
    intro g id
    simp [runOps, CoinSetAndNotDeleted]
  | cons op rest ih =>
    intro g id
    have hstep : runOps (op :: rest) g = runOps rest (op.apply g) := rfl
    rw [hstep, ih (op.apply g) id, CoinSetAndNotDeleted_cons]
    cases op with
    | setCoin R =>
      have hk : Sprintf_d id ∈ (StoreOp.apply g (StoreOp.setCoin R)).coinConstraintMap.Keys ↔
          R.CoinID = id ∨ Sprintf_d id ∈ g.coinConstraintMap.Keys := by
        show Sprintf_d id ∈ (g.coinConstraintMap.Set (Sprintf_d R.CoinID) R).Keys ↔ _
        rw [CMap.mem_Keys_Set]
        constructor
        · rintro (h | h)
          · exact Or.inl (Sprintf_d_inj _ _ h).symm
          · exact Or.inr h
        · rintro (h | h)
          · exact Or.inl (by rw [h])
          · exact Or.inr h
      rw [hk]
      simp only [List.mem_cons, StoreOp.setCoin.injEq, reduceCtorEq, false_or]
      constructor
      · rintro (h | ⟨h1 | h1, h2⟩)
        · exact Or.inl (Or.inr h)
        · exact Or.inl (Or.inl ⟨R, rfl, h1, h2⟩)
        · exact Or.inr ⟨h1, h2⟩
      · rintro ((⟨R1, hR, h1, h2⟩ | h) | ⟨h1, h2⟩)
        · exact Or.inr ⟨Or.inl (hR ▸ h1), h2⟩
        · exact Or.inl h
        · exact Or.inr ⟨Or.inr h1, h2⟩
    | deleteCoin d =>
      have hk : Sprintf_d id ∈ (StoreOp.apply g (StoreOp.deleteCoin d)).coinConstraintMap.Keys ↔
          d.ID ≠ id ∧ Sprintf_d id ∈ g.coinConstraintMap.Keys := by
        show Sprintf_d id ∈ (g.coinConstraintMap.Remove (Sprintf_d d.ID)).Keys ↔ _
        rw [CMap.mem_Keys_Remove]
        constructor
        · rintro ⟨h1, h2⟩
          exact ⟨fun e => h1 (by rw [e]), h2⟩
        · rintro ⟨h1, h2⟩
          exact ⟨fun e => h1 (Sprintf_d_inj _ _ e).symm, h2⟩
      rw [hk]
      simp only [List.mem_cons, StoreOp.deleteCoin.injEq, reduceCtorEq, false_and, exists_false,
        false_or]
      constructor
      · rintro (h | ⟨⟨h1, h2⟩, h3⟩)
        · exact Or.inl h
        · refine Or.inr ⟨h2, ?_⟩
          rintro c (hc | hc)
          · rw [hc]
            exact h1
          · exact h3 c hc
      · rintro (h | ⟨h1, h2⟩)
        · exact Or.inl h
        · exact Or.inr ⟨⟨h2 d (Or.inl rfl), h1⟩, fun c hc => h2 c (Or.inr hc)⟩
    | setPair R =>
      have hk : (StoreOp.apply g (StoreOp.setPair R)).coinConstraintMap = g.coinConstraintMap := rfl
      rw [hk]
      simp only [List.mem_cons, reduceCtorEq, false_and, exists_false, false_or]
    | deletePair d =>
      have hk : (StoreOp.apply g (StoreOp.deletePair d)).coinConstraintMap =
          g.coinConstraintMap := rfl
      rw [hk]
      simp only [List.mem_cons, reduceCtorEq, false_and, exists_false, false_or]

theorem pair_key_history (ops : List StoreOp) : ∀ (g : Globals) (id : Int),
    Sprintf_d id ∈ (runOps ops g).pairConstraintMap.Keys ↔
      PairSetAndNotDeleted ops id ∨
      (Sprintf_d id ∈ g.pairConstraintMap.Keys ∧
        ∀ c : Pair, StoreOp.deletePair c ∈ ops → c.ID ≠ id) := by
  induction ops with
  | nil =>
    intro g id
    simp [runOps, PairSetAndNotDeleted]
  | cons op rest ih =>
    intro g id
    have hstep : runOps (op :: rest) g = runOps rest (op.apply g) := rfl
    rw [hstep, ih (op.apply g) id, PairSetAndNotDeleted_cons]
    cases op with
    | setPair R =>
      have hk : Sprintf_d id ∈ (StoreOp.apply g (StoreOp.setPair R)).pairConstraintMap.Keys ↔
          R.PairID = id ∨ Sprintf_d id ∈ g.pairConstraintMap.Keys := by
        show Sprintf_d id ∈ (g.pairConstraintMap.Set (Sprintf_d R.PairID) R).Keys ↔ _
        rw [CMap.mem_Keys_Set]
        constructor
        · rintro (h | h)
          · exact Or.inl (Sprintf_d_inj _ _ h).symm
          · exact Or.inr h
        · rintro (h | h)
          · exact Or.inl (by rw [h])
          · exact Or.inr h
      rw [hk]
      simp only [List.mem_cons, StoreOp.setPair.injEq, reduceCtorEq, false_or]
      constructor
      · rintro (h | ⟨h1 | h1, h2⟩)
        · exact Or.inl (Or.inr h)
        · exact Or.inl (Or.inl ⟨R, rfl, h1, h2⟩)
        · exact Or.inr ⟨h1, h2⟩
      · rintro ((⟨R1, hR, h1, h2⟩ | h) | ⟨h1, h2⟩)
        · exact Or.inr ⟨Or.inl (hR ▸ h1), h2⟩
        · exact Or.inl h
        · exact Or.inr ⟨Or.inr h1, h2⟩
    | deletePair d =>
      have hk : Sprintf_d id ∈ (StoreOp.apply g (StoreOp.deletePair d)).pairConstraintMap.Keys ↔
          d.ID ≠ id ∧ Sprintf_d id ∈ g.pairConstraintMap.Keys := by
        show Sprintf_d id ∈ (g.pairConstraintMap.Remove (Sprintf_d d.ID)).Keys ↔ _
        rw [CMap.mem_Keys_Remove]
        constructor
        · rintro ⟨h1, h2⟩
          exact ⟨fun e => h1 (by rw [e]), h2⟩
        · rintro ⟨h1, h2⟩
          exact ⟨fun e => h1 (Sprintf_d_inj _ _ e).symm, h2⟩
      rw [hk]
      simp only [List.mem_cons, StoreOp.deletePair.injEq, reduceCtorEq, false_and, exists_false,
        false_or]
      constructor
      · rintro (h | ⟨⟨h1, h2⟩, h3⟩)
        · exact Or.inl h
        · refine Or.inr ⟨h2, ?_⟩
          rintro c (hc | hc)
          · rw [hc]
            exact h1
          · exact h3 c hc
      · rintro (h | ⟨h1, h2⟩)
        · exact Or.inl h
        · exact Or.inr ⟨⟨h2 d (Or.inl rfl), h1⟩, fun c hc => h2 c (Or.inr hc)⟩
    | setCoin R =>
      have hk : (StoreOp.apply g (StoreOp.setCoin R)).pairConstraintMap = g.pairConstraintMap := rfl
      rw [hk]
      simp only [List.mem_cons, reduceCtorEq, false_and, exists_false, false_or]
    | deleteCoin d =>
      have hk : (StoreOp.apply g (StoreOp.deleteCoin d)).pairConstraintMap =
          g.pairConstraintMap := rfl
      rw [hk]
      simp only [List.mem_cons, reduceCtorEq, false_and, exists_false, false_or]

/-- C18: in every state reached from empty maps by a sequence of calls whose IDs
are Go `int`s (zero and negative ones included), the ID sequence that `GetCoins`
resolves is strictly increasing and holds exactly the coin IDs that have been
set and not deleted afterwards; `GetCoins` returns `coin.GetCoinByID` of these
IDs in that order, one element per stored record; every stored key parses back
to the ID it renders.  The same for `GetPairs` with `pair.GetPairByID`.
Rendering an `int` and parsing the key gives the `int` back, different IDs have
different keys, and setting an ID a second time adds no entry. -/
theorem C18_exact_id_listing (env : Env) (ops : List StoreOp) (g0 : Globals)
    (hcoin : g0.coinConstraintMap = CMap.New) (hpair : g0.pairConstraintMap = CMap.New)
    (hrange : ∀ op ∈ ops, op.inRange) :
    ((GetCoins.keySort (runOps ops g0)).Sorted (fun a b => a < b) ∧
      (∀ id : Int, id ∈ GetCoins.keySort (runOps ops g0) ↔ CoinSetAndNotDeleted ops id) ∧
      GetCoins env (runOps ops g0) = (GetCoins.keySort (runOps ops g0)).map env.GetCoinByID ∧
      (GetCoins env (runOps ops g0)).length = (runOps ops g0).coinConstraintMap.Count ∧
      (∀ key ∈ (runOps ops g0).coinConstraintMap.Keys, Sprintf_d (Atoi key) = key)) ∧
    ((GetPairs.keySort (runOps ops g0)).Sorted (fun a b => a < b) ∧
      (∀ id : Int, id ∈ GetPairs.keySort (runOps ops g0) ↔ PairSetAndNotDeleted ops id) ∧
      GetPairs env (runOps ops g0) = (GetPairs.keySort (runOps ops g0)).map env.GetPairByID ∧
      (GetPairs env (runOps ops g0)).length = (runOps ops g0).pairConstraintMap.Count ∧
      (∀ key ∈ (runOps ops g0).pairConstraintMap.Keys, Sprintf_d (Atoi key) = key)) ∧
    (∀ n : Int, isInt n → Atoi (Sprintf_d n) = n) ∧
    (∀ a b : Int, a ≠ b → Sprintf_d a ≠ Sprintf_d b) ∧
    (∀ (g : Globals) (R R1 : CoinConstraint), R1.CoinID = R.CoinID →
      (SetCoinConstraint (SetCoinConstraint g R) R1).coinConstraintMap.Count =
        (SetCoinConstraint g R).coinConstraintMap.Count) ∧
    (∀ (g : Globals) (R R1 : PairConstraint), R1.PairID = R.PairID →
      (SetPairConstraint (SetPairConstraint g R) R1).pairConstraintMap.Count =
        (SetPairConstraint g R).pairConstraintMap.Count) := by
  have hc0 : KeysWellFormed g0.coinConstraintMap.Keys := by
    simp [KeysWellFormed, hcoin, CMap.Keys, CMap.New]
  have hp0 : KeysWellFormed g0.pairConstraintMap.Keys := by
    simp [KeysWellFormed, hpair, CMap.Keys, CMap.New]
  have hc := coin_keys_run ops g0 hrange hc0
  have hp := pair_keys_run ops g0 hrange hp0
  refine ⟨⟨sorted_keys_strict _ hc, ?_, rfl, ?_, ?_⟩, ⟨sorted_keys_strict _ hp, ?_, rfl, ?_, ?_⟩,
    ?_, ?_, ?_, ?_⟩
  · intro id
    unfold GetCoins.keySort
    rw [mem_sorted_keys _ hc id, coin_key_history ops g0 id]
    simp [hcoin, CMap.Keys, CMap.New]
  · simp [GetCoins, GetCoins.keySort, (sortInts_perm _).length_eq, CMap.Keys, CMap.Count]
  · intro key hkey
    exact (Atoi_of_key key (hc.2 key hkey)).1
  · intro id
    unfold GetPairs.keySort
    rw [mem_sorted_keys _ hp id, pair_key_history ops g0 id]
    simp [hpair, CMap.Keys, CMap.New]
  · simp [GetPairs, GetPairs.keySort, (sortInts_perm _).length_eq, CMap.Keys, CMap.Count]
  · intro key hkey
    exact (Atoi_of_key key (hp.2 key hkey)).1
  · intro n hn
    exact Atoi_Sprintf_d n hn.1 hn.2
  · intro a b hab
    exact Sprintf_d_ne a b hab
  · intro g R R1 hid
    simp only [SetCoinConstraint, CMap.Set, CMap.Count, hid]
    apply CMap.length_upsert_of_mem
    exact (CMap.mem_keys_upsert _ _ R _).mpr (Or.inl rfl)
  · intro g R R1 hid
    simp only [SetPairConstraint, CMap.Set, CMap.Count, hid]
    apply CMap.length_upsert_of_mem
    exact (CMap.mem_keys_upsert _ _ R _).mpr (Or.inl rfl)

/-- C18 at a concrete input: after the calls of `mixedOps` (coins 5, 0, -3 set,
5 set again, 0 deleted) the IDs resolved are -3 and 5, and the two resolved pair
IDs reduce to -2 once pair 10 is deleted. -/
theorem C18_exact_id_listing_witness :
    (∀ op ∈ mixedOps, op.inRange) ∧
    GetCoins.keySort (runOps mixedOps Globals.initial) = [-3, 5] ∧
    GetPairs.keySort (runOps mixedOps Globals.initial) = [-2] ∧
    (GetCoins.keySort (runOps mixedOps Globals.initial)).Sorted (fun a b => a < b) ∧
    CoinSetAndNotDeleted mixedOps (-3) ∧
    ¬ CoinSetAndNotDeleted mixedOps 0 :=
  ⟨by decide, by decide, by decide,
   (C18_exact_id_listing sampleEnv mixedOps Globals.initial rfl rfl (by decide)).1.1,
   ((C18_exact_id_listing sampleEnv mixedOps Globals.initial rfl rfl (by decide)).1.2.1
     (-3)).mp (by decide),
   fun h => absurd
     (((C18_exact_id_listing sampleEnv mixedOps Globals.initial rfl rfl (by decide)).1.2.1
       0).mpr h) (by decide)⟩

/-! ## Membership of a pair -/

/-- C19: in every state reached from an empty pair map by a sequence of calls
whose IDs are Go `int`s, `HasPair(p)` is true exactly when `GetPairConstraint(p)`
returns a record, and exactly when `p.ID` is among the IDs `GetPairs` resolves;
`HasPair(p)` is true right after `SetPairConstraint` of a record with
`PairID = p.ID` and false right after `DeletePair(p)`. -/
theorem C19_has_pair (ops : List StoreOp) (g0 : Globals)
    (hpair : g0.pairConstraintMap = CMap.New) (hrange : ∀ op ∈ ops, op.inRange) (p : Pair) :
    (HasPair (runOps ops g0) p = true ↔
      ∃ R : PairConstraint, GetPairConstraint (runOps ops g0) p = some R) ∧
    (HasPair (runOps ops g0) p = true ↔ p.ID ∈ GetPairs.keySort (runOps ops g0)) ∧
    (∀ R : PairConstraint, R.PairID = p.ID →
      HasPair (SetPairConstraint (runOps ops g0) R) p = true) ∧
    HasPair (DeletePair (runOps ops g0) p) p = false := by
  have hp0 : KeysWellFormed g0.pairConstraintMap.Keys := by
    simp [KeysWellFormed, hpair, CMap.Keys, CMap.New]
  have hp := pair_keys_run ops g0 hrange hp0
  refine ⟨?_, ?_, ?_, ?_⟩
  · unfold HasPair GetPairConstraint CMap.Has
    cases (runOps ops g0).pairConstraintMap.Get (Sprintf_d p.ID) with
    | none => simp
    | some R => simp
  · unfold GetPairs.keySort
    rw [mem_sorted_keys _ hp p.ID]
    exact CMap.Has_iff_mem_Keys _ _
  · intro R hid
    simp [HasPair, CMap.Has, SetPairConstraint, hid, CMap.Get_Set_self]
  · simp [HasPair, CMap.Has, DeletePair, CMap.Get_Remove_self]

/-- C19 at a concrete input: after the calls of `mixedOps`, which set pairs 10 and
-2 and then delete pair 10, `HasPair` holds for pair -2 and not for pair 10. -/
theorem C19_has_pair_witness :
    Globals.initial.pairConstraintMap = CMap.New ∧
    (∀ op ∈ mixedOps, op.inRange) ∧
    HasPair (runOps mixedOps Globals.initial) { btcEth with ID := -2 } = true ∧
    HasPair (runOps mixedOps Globals.initial) btcEth = false ∧
    ({ btcEth with ID := -2 } : Pair).ID ∈ GetPairs.keySort (runOps mixedOps Globals.initial) :=
  ⟨rfl, by decide, by decide, by decide,
   (C19_has_pair mixedOps Globals.initial rfl (by decide) { btcEth with ID := -2 }).2.1.mp
     (by decide)⟩

end Gored
